import Mathlib

/-!
# Verification of the ExportBlend node-group exporter

A shallow embedding of `src/__init__.py` (the ExportBlend Blender add-on),
covering the components the specification's claims are about:

* the value formatter `format_value` (and its helpers),
* the identifier sanitizer `sanitize_name`,
* the tree-type resolver `get_node_tree_type`,
* the dependency discoverer `find_nested_node_groups`,
* the single-graph emitter `export_single_node_group`, and
* the program assembler `export_node_group_to_python`.

Modelling conventions, used throughout:

* Python exceptions are modelled with `Except Unit`: a function that can let
  an exception propagate returns `Except Unit α`, with `Except.error ()`
  standing for "an uncaught exception was raised".
* IEEE-754 floats are abstracted by their rendered decimal text: a field such
  as a node's `location.x` only ever flows into the output through a fixed
  format (`{:.1f}` or `repr`), so the model stores that rendered string
  directly.  This keeps every claim decidable while remaining faithful to
  everything the program does with the number.
* Python character classes (`str.isalnum`, `str.isdigit`, `str.lower`) are
  modelled on the ASCII fragment, which is the fragment relevant to the
  generated identifiers.
* Graphs are identified by name, per the data-model invariant that a graph's
  name is unique within the host namespace (`bpy.data.node_groups`).
-/

namespace ExportBlend

/-! ## Python runtime values (for `format_value`)

`format_value` discriminates its argument by `isinstance` / type-name /
`hasattr('__iter__')` checks, in a fixed order, so a runtime value is
modelled as a tagged union whose tag records which of those disjoint
categories the value falls into:

* `pnone`   — Python `None`;
* `pstr`    — a `str`;
* `pbool`   — a `bool` (checked before `int`, as the source does);
* `pint`    — an `int` that is not a `bool`;
* `pfloat`  — a `float`, abstracted by its `repr` text;
* `pmath`   — a value whose type name is one of `Vector`, `Color`, `Euler`,
  `Quaternion`; its components are abstracted by their `repr` texts;
* `piter`   — any other value with `__iter__`; `items` is the outcome of
  `list(val)` (`Except.error ()` if that call raises), and `selfRepr` is the
  outcome of `repr(val)`;
* `pother`  — a value with none of the above; `selfRepr` is the outcome of
  `repr(val)` (`Except.error ()` if the object's `__repr__` raises). -/
inductive PyVal : Type where
  | pnone : PyVal
  | pstr (s : String) : PyVal
  | pbool (b : Bool) : PyVal
  | pint (n : Int) : PyVal
  | pfloat (r : String) : PyVal
  | pmath (tyName : String) (comps : List String) : PyVal
  | piter (selfRepr : Except Unit String) (items : Except Unit (List PyVal)) : PyVal
  | pother (selfRepr : Except Unit String) : PyVal

/-- Python `repr` of a `str`, modelled for printable text: single-quote
style, preferring double quotes when the text contains a single quote but no
double quote, with backslashes and quotes escaped (the rule CPython uses). -/
def pyReprStr (s : String) : String :=
  let chars := s.toList
  let useDouble := chars.contains '\'' && !(chars.contains '"')
  let quote : Char := if useDouble then '"' else '\''
  let body := chars.foldr (fun c acc =>
    if c = '\\' then '\\' :: '\\' :: acc
    else if c = quote then '\\' :: c :: acc
    else c :: acc) []
  String.mk (quote :: body ++ [quote])

/-- Python `repr` of a tuple given the `repr`s of its elements:
`()`, `(a,)`, `(a, b)`, ... -/
def pyReprTupleOf (rs : List String) : String :=
  match rs with
  | [] => "()"
  | [r] => "(" ++ r ++ ",)"
  | r :: rest => "(" ++ r ++ (rest.foldl (fun acc x => acc ++ ", " ++ x) "") ++ ")"

/-- Python `repr` of a modelled runtime value; `Except.error ()` when the
`repr` call would raise. -/
def pyRepr : PyVal → Except Unit String
  | .pnone => .ok "None"
  | .pstr s => .ok (pyReprStr s)
  | .pbool b => .ok (if b then "True" else "False")
  | .pint n => .ok (toString n)
  | .pfloat r => .ok r
  | .pmath ty comps => .ok (ty ++ "(" ++ pyReprTupleOf comps ++ ")")
  | .piter r _ => r
  | .pother r => r

/-- `repr(tuple(items))`: `repr` of each element, then the tuple rendering;
raises iff some element's `repr` raises. -/
def pyReprTuple (items : List PyVal) : Except Unit String := do
  let rs ← items.mapM pyRepr
  pure (pyReprTupleOf rs)

/-- Whether a modelled value is a one-character `str`
(`isinstance(item, str) and len(item) == 1`). -/
def isSingleCharStr : PyVal → Bool
  | .pstr s => s.length = 1
  | _ => false

/-- Embedding of `format_value` (src/__init__.py:40-68).  Returns
`Except.ok (some lit)` for a literal source expression, `Except.ok none` for
the "not representable" sentinel (Python `None`), and `Except.error ()` when
the call raises.  The final fallback `return repr(val)` is *not* wrapped in
a `try`, so a `pother` value whose `repr` raises propagates the exception. -/
def format_value (val : PyVal) : Except Unit (Option String) :=
  match val with
  | .pnone => .ok none
  | .pstr s => .ok (some (pyReprStr s))
  | .pbool b => .ok (some (if b then "True" else "False"))
  | .pint n => .ok (some (toString n))
  | .pfloat r => .ok (some r)
  | .pmath _ comps => .ok (some (pyReprTupleOf comps))
  | .piter _ items =>
    -- the whole branch body is wrapped in `try: ... except: return None`
    match items with
    | .error _ => .ok none
    | .ok its =>
      if !its.isEmpty && its.all isSingleCharStr then .ok none
      else
        match pyReprTuple its with
        | .ok s => .ok (some s)
        | .error _ => .ok none
  | .pother r =>
    match r with
    | .ok s => .ok (some s)
    | .error e => .error e

/-! ## Identifier sanitizer -/

/-- ASCII model of Python `str.isalnum` for a single character. -/
def pyIsAlnum (c : Char) : Bool :=
  (65 ≤ c.toNat ∧ c.toNat ≤ 90) ∨ (97 ≤ c.toNat ∧ c.toNat ≤ 122) ∨
    (48 ≤ c.toNat ∧ c.toNat ≤ 57)

/-- ASCII model of Python `str.isdigit` for a single character. -/
def pyIsDigit (c : Char) : Bool :=
  48 ≤ c.toNat ∧ c.toNat ≤ 57

/-- ASCII model of Python `str.lower` on one character. -/
def pyToLower (c : Char) : Char :=
  if 65 ≤ c.toNat ∧ c.toNat ≤ 90 then Char.ofNat (c.toNat + 32) else c

/-- `sanitize_name`, stage 1 (the `for` loop): keep alphanumerics and
underscores, replace every other character by `_`. -/
def sanitizeKeep (name : String) : List Char :=
  name.toList.map (fun c => if pyIsAlnum c || c = '_' then c else '_')

/-- `sanitize_name`, stage 2: `if result and result[0].isdigit()`, prefix an
underscore. -/
def sanitizeDigitGuard (r : List Char) : List Char :=
  match r with
  | [] => r
  | c :: _ => if pyIsDigit c then '_' :: r else r

/-- `sanitize_name`, stage 3: `if not result`, substitute `"node"`. -/
def sanitizeFallback (r : List Char) : List Char :=
  if r = [] then ['n', 'o', 'd', 'e'] else r

/-- Embedding of `sanitize_name` (src/__init__.py:80-95): keep alphanumerics
and underscores, replace everything else by `_`; prefix `_` when the result
starts with a digit; substitute `"node"` when the result is empty; lowercase
the final result. -/
def sanitize_name (name : String) : String :=
  String.mk ((sanitizeFallback (sanitizeDigitGuard (sanitizeKeep name))).map pyToLower)

-- sanity checks against the spec's value-formatting table
example : sanitize_name "My Node!" = "my_node_" := by decide
example : sanitize_name "9tail" = "_9tail" := by decide
example : sanitize_name "" = "node" := by decide
example : format_value (.pstr "hello") = .ok (some "'hello'") := rfl
example : format_value (.pbool true) = .ok (some "True") := rfl
example : format_value .pnone = .ok none := rfl
example : format_value (.pmath "Vector" ["1.0", "2.0", "3.0"]) = .ok (some "(1.0, 2.0, 3.0)") := rfl
example : format_value (.piter (.ok "['a', 'b']") (.ok [.pstr "a", .pstr "b"])) = .ok none := rfl
example : format_value (.piter (.ok "[1, 2]") (.ok [.pint 1, .pint 2])) = .ok (some "(1, 2)") := rfl

/-! ## Claims about the value formatter (C6) -/

/-- **C6 (counterexample).** The claim says `format_value` never raises,
"including for values whose generic literal rendering (the final fallback)
fails".  But the final fallback `return repr(val)` (src/__init__.py:68) is
not guarded by a `try`: for a non-iterable value whose `__repr__` raises,
the exception propagates out of `format_value`. -/
theorem format_value_raises_on_failing_fallback_repr :
    format_value (.pother (.error ())) = Except.error () := rfl

/-- **C6 (amended).** For every runtime value *except* a non-iterable value
whose generic `repr` fallback raises, `format_value` returns normally with
either a literal string or the "not representable" sentinel `None`;
in the excepted case the exception propagates. -/
theorem format_value_total_unless_fallback_repr_fails (v : PyVal)
    (h : v ≠ PyVal.pother (Except.error ())) :
    ∃ r : Option String, format_value v = Except.ok r := by
  cases v with
  | pnone => exact ⟨_, rfl⟩
  | pstr s => exact ⟨_, rfl⟩
  | pbool b => exact ⟨_, rfl⟩
  | pint n => exact ⟨_, rfl⟩
  | pfloat r => exact ⟨_, rfl⟩
  | pmath t c => exact ⟨_, rfl⟩
  | piter r items =>
    cases items with
    | error e => exact ⟨_, rfl⟩
    | ok its =>
      simp only [format_value]
      split
      · exact ⟨_, rfl⟩
      · split <;> exact ⟨_, rfl⟩
  | pother r =>
    cases r with
    | ok s => exact ⟨_, rfl⟩
    | error e => cases e; exact absurd rfl h

/-- **C6 (witness).** The amended theorem applied at a concrete value. -/
theorem format_value_total_witness :
    ∃ r : Option String, format_value (.pstr "hello") = Except.ok r :=
  format_value_total_unless_fallback_repr_fails (.pstr "hello")
    (fun h => PyVal.noConfusion h)

/-! ## Claims about the identifier sanitizer (C7) -/

/-- `Char.ofNat` round-trips on codepoints below the surrogate range. -/
theorem toNat_ofNat_valid (n : Nat) (h : n < 55296) : (Char.ofNat n).toNat = n := by
  have hv : n.isValidChar := Or.inl h
  unfold Char.ofNat
  rw [dif_pos hv]
  simp [Char.ofNatAux, Char.toNat]
  rfl

/-- A character legal in the sanitized identifiers: underscore (code 95), a
lowercase ASCII letter (codes 97–122), or an ASCII digit (codes 48–57). -/
def isIdentChar (c : Char) : Prop :=
  c.toNat = 95 ∨ (97 ≤ c.toNat ∧ c.toNat ≤ 122) ∨ (48 ≤ c.toNat ∧ c.toNat ≤ 57)

/-- Lowering an alphanumeric-or-underscore character yields an identifier
character. -/
theorem isIdentChar_pyToLower (c : Char) (h : pyIsAlnum c = true ∨ c = '_') :
    isIdentChar (pyToLower c) := by
  unfold pyToLower isIdentChar
  rcases h with h | h
  · unfold pyIsAlnum at h
    simp only [decide_eq_true_eq] at h
    rcases h with ⟨h1, h2⟩ | ⟨h1, h2⟩ | ⟨h1, h2⟩
    · rw [if_pos ⟨h1, h2⟩]
      rw [toNat_ofNat_valid _ (by omega)]
      omega
    · rw [if_neg (by omega)]
      omega
    · rw [if_neg (by omega)]
      omega
  · subst h
    decide

/-- Lowering a non-digit alphanumeric-or-underscore character never
produces a digit. -/
theorem pyToLower_not_digit (c : Char) (h : pyIsAlnum c = true ∨ c = '_')
    (hd : pyIsDigit c = false) : pyIsDigit (pyToLower c) = false := by
  unfold pyToLower
  unfold pyIsDigit at hd ⊢
  simp only [decide_eq_true_eq, decide_eq_false_iff_not] at hd ⊢
  rcases h with h | h
  · unfold pyIsAlnum at h
    simp only [decide_eq_true_eq] at h
    rcases h with ⟨h1, h2⟩ | ⟨h1, h2⟩ | ⟨h1, h2⟩
    · rw [if_pos ⟨h1, h2⟩, toNat_ofNat_valid _ (by omega)]
      omega
    · rw [if_neg (by omega)]
      omega
    · exact absurd ⟨h1, h2⟩ hd
  · subst h
    decide

/-- Every character kept or substituted by the per-character pass satisfies
alphanumeric-or-underscore. -/
theorem sanitize_kept_char (c : Char) :
    pyIsAlnum (if pyIsAlnum c || c = '_' then c else '_') = true ∨
      (if pyIsAlnum c || c = '_' then c else '_') = '_' := by
  split
  · next h =>
    rcases Bool.or_eq_true_iff.mp h with h | h
    · exact Or.inl h
    · exact Or.inr (by simpa using h)
  · exact Or.inr rfl

/-- Characters of stage 1's output are alphanumeric or underscore. -/
theorem sanitizeKeep_chars (name : String) :
    ∀ c ∈ sanitizeKeep name, pyIsAlnum c = true ∨ c = '_' := by
  intro c hc
  obtain ⟨a, _, rfl⟩ := List.mem_map.mp hc
  exact sanitize_kept_char a

/-- Stage 2 preserves the character class. -/
theorem sanitizeDigitGuard_chars (r : List Char)
    (h : ∀ c ∈ r, pyIsAlnum c = true ∨ c = '_') :
    ∀ c ∈ sanitizeDigitGuard r, pyIsAlnum c = true ∨ c = '_' := by
  unfold sanitizeDigitGuard
  match r, h with
  | [], h => exact h
  | c :: cs, h =>
    by_cases hd : pyIsDigit c
    · simp only [if_pos hd]
      intro x hx
      rcases List.mem_cons.mp hx with rfl | hx
      · exact Or.inr rfl
      · exact h x hx
    · simp only [if_neg hd]
      exact h

/-- Stage 3 preserves the character class. -/
theorem sanitizeFallback_chars (r : List Char)
    (h : ∀ c ∈ r, pyIsAlnum c = true ∨ c = '_') :
    ∀ c ∈ sanitizeFallback r, pyIsAlnum c = true ∨ c = '_' := by
  unfold sanitizeFallback
  split
  · intro c hc
    fin_cases hc <;> exact Or.inl (by decide)
  · exact h

/-- Stage 3 never returns the empty list. -/
theorem sanitizeFallback_ne_nil (r : List Char) : sanitizeFallback r ≠ [] := by
  unfold sanitizeFallback
  split
  · simp
  · assumption

/-- The head of stage 3's output is never a digit. -/
theorem sanitize_head_not_digit (r : List Char) (c : Char)
    (h : (sanitizeFallback (sanitizeDigitGuard r)).head? = some c) :
    pyIsDigit c = false := by
  match r with
  | [] =>
    have he : sanitizeFallback (sanitizeDigitGuard ([] : List Char)) = ['n', 'o', 'd', 'e'] := rfl
    rw [he] at h
    simp only [List.head?_cons, Option.some.injEq] at h
    subst h
    decide
  | c0 :: cs =>
    by_cases hd : pyIsDigit c0
    · have h1 : sanitizeDigitGuard (c0 :: cs) = '_' :: c0 :: cs := by
        simp [sanitizeDigitGuard, hd]
      have h2 : sanitizeFallback ('_' :: c0 :: cs) = '_' :: c0 :: cs := by
        unfold sanitizeFallback
        rw [if_neg (by simp)]
      rw [h1, h2] at h
      simp only [List.head?_cons, Option.some.injEq] at h
      subst h
      decide
    · have h1 : sanitizeDigitGuard (c0 :: cs) = c0 :: cs := by
        simp [sanitizeDigitGuard, hd]
      have h2 : sanitizeFallback (c0 :: cs) = c0 :: cs := by
        unfold sanitizeFallback
        rw [if_neg (by simp)]
      rw [h1, h2] at h
      simp only [List.head?_cons, Option.some.injEq] at h
      subst h
      simpa using hd

/-- **C7.** For every input display name (including the empty string, names
starting with a digit, and names of only punctuation), `sanitize_name`
returns an identifier that is non-empty, contains only lowercase ASCII
alphanumerics and underscores, and does not start with a digit.  (Python's
character classes are modelled on the ASCII fragment.) -/
theorem sanitize_name_valid (name : String) :
    sanitize_name name ≠ "" ∧
    (∀ c ∈ (sanitize_name name).toList, isIdentChar c) ∧
    (∀ c, (sanitize_name name).toList.head? = some c → pyIsDigit c = false) := by
  unfold sanitize_name
  have hok : ∀ c ∈ sanitizeFallback (sanitizeDigitGuard (sanitizeKeep name)),
      pyIsAlnum c = true ∨ c = '_' :=
    sanitizeFallback_chars _ (sanitizeDigitGuard_chars _ (sanitizeKeep_chars name))
  have hne := sanitizeFallback_ne_nil (sanitizeDigitGuard (sanitizeKeep name))
  have htl : ∀ l : List Char, (String.mk l).toList = l := fun _ => rfl
  refine ⟨?_, ?_, ?_⟩
  · intro h
    have h2 : (String.mk ((sanitizeFallback (sanitizeDigitGuard (sanitizeKeep name))).map
        pyToLower)).toList = [] := by rw [h]; rfl
    rw [htl] at h2
    exact hne (List.map_eq_nil_iff.mp h2)
  · intro c hc
    rw [htl] at hc
    obtain ⟨a, ha, rfl⟩ := List.mem_map.mp hc
    exact isIdentChar_pyToLower a (hok a ha)
  · intro c hc
    rw [htl] at hc
    match hm : sanitizeFallback (sanitizeDigitGuard (sanitizeKeep name)), hne, hc with
    | a :: rest, _, hc =>
      simp only [List.map_cons, List.head?_cons, Option.some.injEq] at hc
      subst hc
      have hmem : a ∈ sanitizeFallback (sanitizeDigitGuard (sanitizeKeep name)) := by
        rw [hm]
        exact List.mem_cons_self a rest
      have hhead : pyIsDigit a = false := by
        apply sanitize_head_not_digit (sanitizeKeep name)
        rw [hm]
        rfl
      exact pyToLower_not_digit a (hok a hmem) hhead

/-- **C7 (witness).** The theorem applied at a concrete input. -/
theorem sanitize_name_valid_witness :
    sanitize_name "123!@#" ≠ "" ∧ pyIsDigit '_' = false :=
  ⟨(sanitize_name_valid "123!@#").1,
   (sanitize_name_valid "123!@#").2.2 '_' (by decide)⟩

/-! ## Data model: sockets, nodes, links, graphs

The structures mirror the attribute subset of the live Blender objects that
the exporter reads.  `sid` on a socket models object identity (Python's
`list.index` and dictionary membership compare live sockets by identity);
float-valued attributes are abstracted by their rendered text (see the
module header); a node's kind-specific configuration attributes are held in
an association list of pre-rendered values. -/

/-- A property descriptor from `node.bl_rna.properties` (used by the generic
fallback of `export_node_properties`).  `value` is the outcome of
`getattr(node, identifier)`, rendered; `Except.error ()` models a `getattr`
that raises, `Except.ok none` a `None` value. -/
structure RnaProp : Type where
  identifier : String
  isReadonly : Bool
  ptype : String
  value : Except Unit (Option String)

/-- An input or output socket. -/
structure PSocket : Type where
  sid : Nat
  hasDefault : Bool := false
  defaultVal : PyVal := PyVal.pnone
  isLinked : Bool := false

/-- A color-ramp element of a `ShaderNodeValToRGB` node: position and color
are abstracted by their interpolated text. -/
structure RampElem : Type where
  positionR : String
  colorR : String

/-- A node of a graph. -/
structure PNode : Type where
  name : String
  blIdname : String
  label : String := ""
  locXR : String := "0.0"
  locYR : String := "0.0"
  hasWidth : Bool := true
  widthR : String := "140.0"
  hide : Bool := false
  mute : Bool := false
  nodeTree : Option String := none
  image : Option String := none
  colorRampColorMode : String := "RGB"
  colorRampInterpolation : String := "LINEAR"
  colorRampElements : List RampElem := []
  attrs : List (String × String) := []
  rnaProps : Except Unit (List RnaProp) := Except.ok []
  inputs : List PSocket := []
  outputs : List PSocket := []

/-- A directed link.  The endpoints carry the node data itself (Python holds
the node objects); variable lookup during emission goes through the node's
*name*, exactly as the source does. -/
structure PLink : Type where
  fromNode : PNode
  fromSocket : PSocket
  toNode : PNode
  toSocket : PSocket

/-- An entry of `node_group.interface.items_tree`. -/
structure IfaceItem : Type where
  itemType : String
  name : String
  inOut : String
  socketType : String

/-- A node group (graph). -/
structure PGraph : Type where
  name : String
  blIdname : String
  hasInterface : Bool := true
  interfaceItems : List IfaceItem := []
  nodes : List PNode := []
  links : List PLink := []

/-- The host namespace `bpy.data.node_groups`: all live graphs. -/
abbrev Env := List PGraph

/-- Fetch a graph object from the host namespace by name. -/
def lookupGraph (env : Env) (n : String) : Option PGraph :=
  env.find? (fun G => G.name == n)

/-- The four group-node kind identifiers recognised by
`find_nested_node_groups`. -/
def isGroupIdname (s : String) : Bool :=
  s == "GeometryNodeGroup" || s == "ShaderNodeGroup" ||
    s == "CompositorNodeGroup" || s == "TextureNodeGroup"

/-- The nested trees referenced by a graph's group nodes, in node order:
nodes whose kind is a group kind and whose `node_tree` is set (an unset
reference contributes nothing).  In Python the node holds the referenced
graph object itself; the model fetches it by name from the host namespace. -/
def refsOf (env : Env) (g : PGraph) : List PGraph :=
  g.nodes.filterMap (fun nd =>
    if isGroupIdname nd.blIdname then nd.nodeTree.bind (lookupGraph env) else none)

/-- `g not in nested_groups`, with the live objects' identity modelled by
the unique-name invariant. -/
def memName (l : List PGraph) (g : PGraph) : Bool :=
  l.any (fun t => t.name == g.name)

/-- `if g not in nested_groups: nested_groups.append(g)`. -/
def appendNew (l : List PGraph) (g : PGraph) : List PGraph :=
  if memName l g then l else l ++ [g]

/-- The merge loop `for sub_group in sub_nested: if ... append`. -/
def mergeDedup (acc sub : List PGraph) : List PGraph :=
  sub.foldl appendNew acc

/-! ## Dependency discoverer

`find_nested_node_groups` (src/__init__.py:124-152) is a depth-first walk
with a mutable visited-set of graph names.  Python recursion is modelled
with explicit fuel: `none` means the fuel ran out (the claims prove that
`env.length + 2` fuel always suffices, i.e. the source function terminates).
The visited set threads through the traversal exactly as the shared mutable
Python set does. -/

/-- The `for node in node_group.nodes` loop of `find_nested_node_groups`,
restricted to the group references it acts on, parametrized by the recursive
call `f` (one fuel level down): recurse into the reference, merge the
sub-dependencies ahead of it with deduplication, then append the reference
itself if absent. -/
def findLoop (f : PGraph → List String → Option (List PGraph × List String)) :
    List PGraph → List PGraph → List String → Option (List PGraph × List String)
  | [], acc, visited => some (acc, visited)
  | t :: ts, acc, visited =>
    match f t visited with
    | none => none
    | some (sub, visited') =>
      findLoop f ts (appendNew (mergeDedup acc sub) t) visited'

/-- One call of `find_nested_node_groups(g, visited)`: returns the local
`nested_groups` list and the grown visited set. -/
def findAux (env : Env) : Nat → PGraph → List String → Option (List PGraph × List String)
  | 0, _, _ => none
  | fuel + 1, g, visited =>
    if g.name ∈ visited then some ([], visited)
    else findLoop (findAux env fuel) (refsOf env g) [] (g.name :: visited)

/-- Embedding of `find_nested_node_groups(node_group)` with its default
arguments: fuel `env.length + 2` is proved sufficient below. -/
def find_nested_node_groups (env : Env) (g : PGraph) : List PGraph :=
  match findAux env (env.length + 2) g [] with
  | some (l, _) => l
  | none => []

/-! ## Name-level view of the accumulator operations

Deduplication in `find_nested_node_groups` compares graphs, which the model
identifies by name; the accumulator operations therefore project onto plain
name lists, on which the ordering and duplicate-freedom invariants are
stated. -/

/-- Names of a graph list. -/
def gnames (l : List PGraph) : List String := l.map PGraph.name

/-- `appendNew` on the name projection. -/
def nameAppend (a : List String) (n : String) : List String :=
  if n ∈ a then a else a ++ [n]

/-- `mergeDedup` on the name projection. -/
def nameMerge (a s : List String) : List String :=
  s.foldl nameAppend a

theorem memName_iff (l : List PGraph) (g : PGraph) :
    memName l g = true ↔ g.name ∈ gnames l := by
  unfold memName gnames
  rw [List.any_eq_true]
  constructor
  · rintro ⟨t, ht, he⟩
    exact List.mem_map.mpr ⟨t, ht, by simpa using he⟩
  · rintro h
    obtain ⟨t, ht, he⟩ := List.mem_map.mp h
    exact ⟨t, ht, by simpa using he⟩

theorem gnames_appendNew (l : List PGraph) (g : PGraph) :
    gnames (appendNew l g) = nameAppend (gnames l) g.name := by
  unfold appendNew nameAppend
  by_cases h : memName l g = true
  · rw [if_pos h, if_pos ((memName_iff l g).mp h)]
  · rw [if_neg h, if_neg (fun hm => h ((memName_iff l g).mpr hm))]
    simp [gnames]

theorem gnames_mergeDedup (acc sub : List PGraph) :
    gnames (mergeDedup acc sub) = nameMerge (gnames acc) (gnames sub) := by
  induction sub generalizing acc with
  | nil => rfl
  | cons t ts ih =>
    show gnames (mergeDedup (appendNew acc t) ts) = nameMerge (nameAppend (gnames acc) t.name) (gnames ts)
    rw [ih, gnames_appendNew]

theorem mem_nameAppend {a : List String} {n m : String} :
    m ∈ nameAppend a n ↔ m ∈ a ∨ m = n := by
  unfold nameAppend
  split
  · next h =>
    constructor
    · exact Or.inl
    · rintro (hm | rfl)
      · exact hm
      · exact h
  · simp

theorem mem_nameMerge {a s : List String} {m : String} :
    m ∈ nameMerge a s ↔ m ∈ a ∨ m ∈ s := by
  induction s generalizing a with
  | nil => simp [nameMerge]
  | cons n ns ih =>
    show m ∈ nameMerge (nameAppend a n) ns ↔ _
    rw [ih, mem_nameAppend]
    simp [or_assoc, List.mem_cons]

theorem nameAppend_sub (a : List String) (n : String) :
    ∃ ext, nameAppend a n = a ++ ext := by
  unfold nameAppend
  split
  · exact ⟨[], by simp⟩
  · exact ⟨[n], rfl⟩

theorem nameMerge_sub (a s : List String) : ∃ ext, nameMerge a s = a ++ ext := by
  induction s generalizing a with
  | nil => exact ⟨[], by simp [nameMerge]⟩
  | cons n ns ih =>
    obtain ⟨e1, he1⟩ := nameAppend_sub a n
    obtain ⟨e2, he2⟩ := ih (nameAppend a n)
    exact ⟨e1 ++ e2, by
      show nameMerge (nameAppend a n) ns = _
      rw [he2, he1, List.append_assoc]⟩

theorem nodup_nameAppend {a : List String} (h : a.Nodup) (n : String) :
    (nameAppend a n).Nodup := by
  unfold nameAppend
  split
  · exact h
  · next hn =>
    exact List.Nodup.append h (by simp) (by simpa [List.disjoint_singleton] using hn)

theorem nodup_nameMerge {a : List String} (h : a.Nodup) (s : List String) :
    (nameMerge a s).Nodup := by
  induction s generalizing a with
  | nil => exact h
  | cons n ns ih => exact ih (nodup_nameAppend h n)

/-- Building a before-pair across an append: `x` in the prefix, `y` in the
extension. -/
theorem pair_sublist_append {a ext : List String} {x y : String}
    (hx : x ∈ a) (hy : y ∈ ext) : [x, y].Sublist (a ++ ext) :=
  List.Sublist.append (List.singleton_sublist.mpr hx) (List.singleton_sublist.mpr hy)

/-- A before-pair in the accumulator survives the merge. -/
theorem pair_sublist_nameMerge_left {a s : List String} {x y : String}
    (h : [x, y].Sublist a) : [x, y].Sublist (nameMerge a s) := by
  obtain ⟨ext, he⟩ := nameMerge_sub a s
  rw [he]
  exact h.trans (List.sublist_append_left a ext)

/-- A member of the accumulator precedes a merged-in name that is new. -/
theorem pair_sublist_nameMerge_mem {a s : List String} {x y : String}
    (hx : x ∈ a) (hy : y ∉ a) (hys : y ∈ s) : [x, y].Sublist (nameMerge a s) := by
  obtain ⟨ext, he⟩ := nameMerge_sub a s
  have hym : y ∈ nameMerge a s := mem_nameMerge.mpr (Or.inr hys)
  rw [he] at hym ⊢
  rcases List.mem_append.mp hym with h | h
  · exact absurd h hy
  · exact pair_sublist_append hx h

/-- A before-pair inside a duplicate-free merged-in list survives the merge
when the later element is new to the accumulator. -/
theorem pair_sublist_nameMerge_right {a s : List String} {x y : String}
    (hs : s.Nodup) (hxy : [x, y].Sublist s) (hy : y ∉ a) :
    [x, y].Sublist (nameMerge a s) := by
  induction s generalizing a with
  | nil => cases hxy
  | cons n ns ih =>
    have hnodup := (List.nodup_cons.mp hs).2
    have hnns := (List.nodup_cons.mp hs).1
    show [x, y].Sublist (nameMerge (nameAppend a n) ns)
    rw [List.sublist_cons_iff] at hxy
    rcases hxy with h | ⟨r, hr, h⟩
    · -- n skipped: the pair lives in ns
      have hyn : y ∈ ns := h.subset (by simp)
      have hy' : y ∉ nameAppend a n := by
        rw [mem_nameAppend]
        rintro (hc | rfl)
        · exact hy hc
        · exact hnns hyn
      exact ih hnodup h hy'
    · -- the head n is x itself, y comes later in ns
      have hx : x = n := by injection hr with h1 _
      have hrest : r = [y] := by
        injection hr with _ h2
        exact h2.symm
      subst hx
      subst hrest
      have hyn : y ∈ ns := List.singleton_sublist.mp h
      have hxa : x ∈ nameAppend a x := mem_nameAppend.mpr (Or.inr rfl)
      have hy' : y ∉ nameAppend a x := by
        rw [mem_nameAppend]
        rintro (hc | rfl)
        · exact hy hc
        · exact hnns hyn
      exact pair_sublist_nameMerge_mem hxa hy' hyn

/-! ## Basic facts about the discoverer -/

/-- Direct reference relation between graphs: `b` is referenced by a group
node of `a`. -/
def stepRef (env : Env) (a b : PGraph) : Prop := b ∈ refsOf env a

/-- Transitive reference: `a` references `b` through one or more group
nodes. -/
def ReachesRef (env : Env) : PGraph → PGraph → Prop :=
  Relation.TransGen (stepRef env)

/-- Reflexive-transitive reference. -/
def RReachesRef (env : Env) : PGraph → PGraph → Prop :=
  Relation.ReflTransGen (stepRef env)

theorem refsOf_subset_env (env : Env) (g : PGraph) :
    ∀ x ∈ refsOf env g, x ∈ env := by
  intro x hx
  unfold refsOf at hx
  obtain ⟨nd, _, he⟩ := List.mem_filterMap.mp hx
  split at he
  · match hnt : nd.nodeTree, he with
    | some n, he =>
      exact List.mem_of_find?_eq_some he
  · cases he

/-- Under the unique-name invariant, a name determines the graph. -/
theorem name_inj (env : Env) (hnames : (env.map PGraph.name).Nodup)
    {a b : PGraph} (ha : a ∈ env) (hb : b ∈ env) (h : a.name = b.name) : a = b :=
  List.inj_on_of_nodup_map hnames ha hb h

theorem mem_appendNew {l : List PGraph} {g x : PGraph} (h : x ∈ appendNew l g) :
    x ∈ l ∨ x = g := by
  unfold appendNew at h
  split at h
  · exact Or.inl h
  · rcases List.mem_append.mp h with h | h
    · exact Or.inl h
    · exact Or.inr (by simpa using h)

theorem mem_mergeDedup {acc sub : List PGraph} {x : PGraph}
    (h : x ∈ mergeDedup acc sub) : x ∈ acc ∨ x ∈ sub := by
  induction sub generalizing acc with
  | nil => exact Or.inl h
  | cons t ts ih =>
    rcases ih h with h | h
    · rcases mem_appendNew h with h | rfl
      · exact Or.inl h
      · exact Or.inr (by simp)
    · exact Or.inr (List.mem_cons_of_mem t h)

theorem name_mem_appendNew_self (l : List PGraph) (g : PGraph) :
    g.name ∈ gnames (appendNew l g) := by
  rw [gnames_appendNew, mem_nameAppend]
  exact Or.inr rfl

theorem gnames_appendNew_mono {l : List PGraph} {n : String} (g : PGraph)
    (h : n ∈ gnames l) : n ∈ gnames (appendNew l g) := by
  rw [gnames_appendNew, mem_nameAppend]
  exact Or.inl h

theorem gnames_mergeDedup_left {acc sub : List PGraph} {n : String}
    (h : n ∈ gnames acc) : n ∈ gnames (mergeDedup acc sub) := by
  rw [gnames_mergeDedup, mem_nameMerge]
  exact Or.inl h

theorem gnames_mergeDedup_right {acc sub : List PGraph} {n : String}
    (h : n ∈ gnames sub) : n ∈ gnames (mergeDedup acc sub) := by
  rw [gnames_mergeDedup, mem_nameMerge]
  exact Or.inr h

/-- Growth of the visited set through the loop, plus: every processed
reference and every collected graph ends up named in the final visited
set. -/
theorem findLoop_grow (f : PGraph → List String → Option (List PGraph × List String))
    (hf : ∀ t vis L v', f t vis = some (L, v') →
      ((∃ pre, v' = pre ++ vis) ∧ t.name ∈ v' ∧ ∀ y ∈ L, y.name ∈ v')) :
    ∀ ts acc vis L v', findLoop f ts acc vis = some (L, v') →
      (∃ pre, v' = pre ++ vis) ∧ (∀ t ∈ ts, t.name ∈ v') ∧
      ((∀ y ∈ acc, y.name ∈ vis) → ∀ y ∈ L, y.name ∈ v') := by
  intro ts
  induction ts with
  | nil =>
    intro acc vis L v' h
    cases h
    exact ⟨⟨[], rfl⟩, by simp, fun ha => ha⟩
  | cons t ts ih =>
    intro acc vis L v' h
    unfold findLoop at h
    cases hf0 : f t vis with
    | none =>
      rw [hf0] at h
      exact absurd h (by simp)
    | some r =>
      obtain ⟨sub, vis1⟩ := r
      rw [hf0] at h
      have h : findLoop f ts (appendNew (mergeDedup acc sub) t) vis1 = some (L, v') := h
      obtain ⟨⟨pre1, hpre1⟩, htn, hsubv⟩ := hf t vis sub vis1 hf0
      obtain ⟨⟨pre2, hpre2⟩, hts, haccv⟩ := ih _ _ _ _ h
      have hmono : ∀ n, n ∈ vis1 → n ∈ v' := by
        intro n hn
        rw [hpre2]
        exact List.mem_append.mpr (Or.inr hn)
      refine ⟨⟨pre2 ++ pre1, by rw [hpre2, hpre1, List.append_assoc]⟩, ?_, ?_⟩
      · intro u hu
        rcases List.mem_cons.mp hu with rfl | hu
        · exact hmono _ htn
        · exact hts u hu
      · intro hacc
        apply haccv
        intro y hy
        rcases mem_appendNew hy with hy | rfl
        · rcases mem_mergeDedup hy with hy | hy
          · rw [hpre1]
            exact List.mem_append.mpr (Or.inr (hacc y hy))
          · exact hsubv y hy
        · exact htn

/-- Growth of the visited set through one call: the initial set is kept, the
argument's name and all result names are recorded. -/
theorem findAux_grow (env : Env) : ∀ fuel g vis L v',
    findAux env fuel g vis = some (L, v') →
    (∃ pre, v' = pre ++ vis) ∧ g.name ∈ v' ∧ ∀ y ∈ L, y.name ∈ v' := by
  intro fuel
  induction fuel with
  | zero => intro g vis L v' h; simp [findAux] at h
  | succ n ih =>
    intro g vis L v' h
    unfold findAux at h
    split at h
    · next hv =>
      cases h
      exact ⟨⟨[], rfl⟩, hv, by simp⟩
    · next hv =>
      obtain ⟨⟨pre, hpre⟩, _, hLv⟩ :=
        findLoop_grow _ (fun t vis L v' h => ih t vis L v' h) _ _ _ _ _ h
      refine ⟨⟨pre ++ [g.name], by rw [hpre]; simp⟩, by rw [hpre]; simp, ?_⟩
      exact hLv (by simp)

/-- The collected list never holds two graphs of the same name. -/
theorem findLoop_nodup (f : PGraph → List String → Option (List PGraph × List String)) :
    ∀ ts acc vis L v', (gnames acc).Nodup →
      findLoop f ts acc vis = some (L, v') → (gnames L).Nodup := by
  intro ts
  induction ts with
  | nil =>
    intro acc vis L v' hacc h
    cases h
    exact hacc
  | cons t ts ih =>
    intro acc vis L v' hacc h
    unfold findLoop at h
    cases hf0 : f t vis with
    | none =>
      rw [hf0] at h
      exact absurd h (by simp)
    | some r =>
      obtain ⟨sub, vis1⟩ := r
      rw [hf0] at h
      have h : findLoop f ts (appendNew (mergeDedup acc sub) t) vis1 = some (L, v') := h
      apply ih _ _ _ _ _ h
      rw [gnames_appendNew, gnames_mergeDedup]
      exact nodup_nameAppend (nodup_nameMerge hacc _) _

/-- No graph name is collected twice by any call of the discoverer. -/
theorem findAux_nodup (env : Env) : ∀ fuel g vis L v',
    findAux env fuel g vis = some (L, v') → (gnames L).Nodup := by
  intro fuel g vis L v' h
  match fuel, h with
  | fuel + 1, h =>
    unfold findAux at h
    split at h
    · cases h
      simp [gnames]
    · exact findLoop_nodup _ _ _ _ _ _ (by simp [gnames]) h

/-- Everything the loop collects lies in the host namespace and is
transitively referenced by `g`; moreover the loop records all processed
references by name. -/
theorem findLoop_envreach (env : Env) (g : PGraph)
    (f : PGraph → List String → Option (List PGraph × List String))
    (hf : ∀ t vis L v', f t vis = some (L, v') →
      (∀ y ∈ L, y ∈ env) ∧ (∀ y ∈ L, ReachesRef env t y)) :
    ∀ ts acc vis L v', (∀ t ∈ ts, t ∈ refsOf env g) →
      (∀ y ∈ acc, y ∈ env) → (∀ y ∈ acc, ReachesRef env g y) →
      findLoop f ts acc vis = some (L, v') →
      (∀ y ∈ L, y ∈ env) ∧ (∀ y ∈ L, ReachesRef env g y) ∧
      (∀ n ∈ gnames acc, n ∈ gnames L) ∧ (∀ t ∈ ts, t.name ∈ gnames L) := by
  intro ts
  induction ts with
  | nil =>
    intro acc vis L v' _ henv hreach h
    cases h
    exact ⟨henv, hreach, fun n hn => hn, by simp⟩
  | cons t ts ih =>
    intro acc vis L v' hts henv hreach h
    unfold findLoop at h
    cases hf0 : f t vis with
    | none =>
      rw [hf0] at h
      exact absurd h (by simp)
    | some r =>
      obtain ⟨sub, vis1⟩ := r
      rw [hf0] at h
      have h : findLoop f ts (appendNew (mergeDedup acc sub) t) vis1 = some (L, v') := h
      have htg : t ∈ refsOf env g := hts t (by simp)
      obtain ⟨hsubenv, hsubreach⟩ := hf t vis sub vis1 hf0
      have henv' : ∀ y ∈ appendNew (mergeDedup acc sub) t, y ∈ env := by
        intro y hy
        rcases mem_appendNew hy with hy | rfl
        · rcases mem_mergeDedup hy with hy | hy
          · exact henv y hy
          · exact hsubenv y hy
        · exact refsOf_subset_env env g _ htg
      have hreach' : ∀ y ∈ appendNew (mergeDedup acc sub) t, ReachesRef env g y := by
        intro y hy
        rcases mem_appendNew hy with hy | rfl
        · rcases mem_mergeDedup hy with hy | hy
          · exact hreach y hy
          · exact Relation.TransGen.head htg (hsubreach y hy)
        · exact Relation.TransGen.single htg
      obtain ⟨c1, c2, c3, c4⟩ := ih _ _ _ _ (fun u hu => hts u (by simp [hu])) henv' hreach' h
      refine ⟨c1, c2, ?_, ?_⟩
      · intro n hn
        exact c3 n (gnames_appendNew_mono t (gnames_mergeDedup_left hn))
      · intro u hu
        rcases List.mem_cons.mp hu with rfl | hu
        · exact c3 _ (name_mem_appendNew_self _ u)
        · exact c4 u hu

/-- Everything a call collects lies in the host namespace and is
transitively referenced by the argument; when the argument is fresh, all its
direct references are collected. -/
theorem findAux_envreach (env : Env) : ∀ fuel g vis L v',
    findAux env fuel g vis = some (L, v') →
    (∀ y ∈ L, y ∈ env) ∧ (∀ y ∈ L, ReachesRef env g y) ∧
    (g.name ∉ vis → ∀ x ∈ refsOf env g, x.name ∈ gnames L) := by
  intro fuel
  induction fuel with
  | zero => intro g vis L v' h; simp [findAux] at h
  | succ n ih =>
    intro g vis L v' h
    unfold findAux at h
    split at h
    · next hv =>
      cases h
      exact ⟨by simp, by simp, fun hnv => absurd hv hnv⟩
    · next hv =>
      obtain ⟨c1, c2, _, c4⟩ :=
        findLoop_envreach env g _ (fun t vis L v' h => ⟨(ih t vis L v' h).1, (ih t vis L v' h).2.1⟩)
          _ _ _ _ _ (fun t ht => ht) (by simp) (by simp) h
      exact ⟨c1, c2, fun _ => c4⟩

/-- Every name newly recorded in the visited set by the loop is a collected
name. -/
theorem findLoop_new (f : PGraph → List String → Option (List PGraph × List String))
    (hf_new : ∀ t vis L v', f t vis = some (L, v') →
      ∀ n ∈ v', n ∉ vis → n = t.name ∨ n ∈ gnames L) :
    ∀ ts acc vis L v', findLoop f ts acc vis = some (L, v') →
      (∀ n ∈ gnames acc, n ∈ gnames L) ∧ (∀ n ∈ v', n ∉ vis → n ∈ gnames L) := by
  intro ts
  induction ts with
  | nil =>
    intro acc vis L v' h
    cases h
    exact ⟨fun n hn => hn, fun n hn hnv => absurd hn hnv⟩
  | cons t ts ih =>
    intro acc vis L v' h
    unfold findLoop at h
    cases hf0 : f t vis with
    | none =>
      rw [hf0] at h
      exact absurd h (by simp)
    | some r =>
      obtain ⟨sub, vis1⟩ := r
      rw [hf0] at h
      have h : findLoop f ts (appendNew (mergeDedup acc sub) t) vis1 = some (L, v') := h
      obtain ⟨c1, c2⟩ := ih _ _ _ _ h
      have hacc' : ∀ n ∈ gnames acc, n ∈ gnames L := by
        intro n hn
        exact c1 n (gnames_appendNew_mono t (gnames_mergeDedup_left hn))
      refine ⟨hacc', ?_⟩
      intro n hnv' hnv
      by_cases hn1 : n ∈ vis1
      · rcases hf_new t vis sub vis1 hf0 n hn1 hnv with rfl | hn
        · exact c1 _ (name_mem_appendNew_self _ t)
        · exact c1 _ (gnames_appendNew_mono t (gnames_mergeDedup_right hn))
      · exact c2 n hnv' hn1

/-- Every name a call newly records in the visited set is either the
argument's name or a collected name. -/
theorem findAux_new (env : Env) : ∀ fuel g vis L v',
    findAux env fuel g vis = some (L, v') →
    ∀ n ∈ v', n ∉ vis → n = g.name ∨ n ∈ gnames L := by
  intro fuel
  induction fuel with
  | zero => intro g vis L v' h; simp [findAux] at h
  | succ m ih =>
    intro g vis L v' h
    unfold findAux at h
    split at h
    · next hv =>
      cases h
      exact fun n hn hnv => absurd hn hnv
    · next hv =>
      obtain ⟨_, c2⟩ := findLoop_new _
        (fun t vis L v' h => ih t vis L v' h) _ _ _ _ _ h
      intro n hn hnv
      by_cases hng : n = g.name
      · exact Or.inl hng
      · exact Or.inr (c2 n hn (by simp [hnv, hng]))

/-- Once the loop is done, a graph whose name was recorded after the given
baseline has all its direct references recorded as well. -/
theorem findLoop_complete (env : Env) (vis0 : List String)
    (f : PGraph → List String → Option (List PGraph × List String))
    (hf_grow : ∀ t vis L v', f t vis = some (L, v') → ∃ pre, v' = pre ++ vis)
    (hf_comp : ∀ t vis L v', t ∈ env → f t vis = some (L, v') →
      ∀ G ∈ env, G.name ∈ v' → G.name ∉ vis → ∀ c ∈ refsOf env G, c.name ∈ v') :
    ∀ ts acc vis L v', (∀ t ∈ ts, t ∈ env) →
      (∀ G ∈ env, G.name ∈ vis → G.name ∉ vis0 → ∀ c ∈ refsOf env G, c.name ∈ vis) →
      findLoop f ts acc vis = some (L, v') →
      ∀ G ∈ env, G.name ∈ v' → G.name ∉ vis0 → ∀ c ∈ refsOf env G, c.name ∈ v' := by
  intro ts
  induction ts with
  | nil =>
    intro acc vis L v' _ hinv h
    cases h
    exact hinv
  | cons t ts ih =>
    intro acc vis L v' hts hinv h
    unfold findLoop at h
    cases hf0 : f t vis with
    | none =>
      rw [hf0] at h
      exact absurd h (by simp)
    | some r =>
      obtain ⟨sub, vis1⟩ := r
      rw [hf0] at h
      have h : findLoop f ts (appendNew (mergeDedup acc sub) t) vis1 = some (L, v') := h
      obtain ⟨pre1, hpre1⟩ := hf_grow t vis sub vis1 hf0
      have hinv' : ∀ G ∈ env, G.name ∈ vis1 → G.name ∉ vis0 →
          ∀ c ∈ refsOf env G, c.name ∈ vis1 := by
        intro G hG hGv1 hGv0 c hc
        by_cases hGvis : G.name ∈ vis
        · rw [hpre1]
          exact List.mem_append.mpr (Or.inr (hinv G hG hGvis hGv0 c hc))
        · exact hf_comp t vis sub vis1 (hts t (by simp)) hf0 G hG hGv1 hGvis c hc
      exact ih _ _ _ _ (fun u hu => hts u (by simp [hu])) hinv' h

/-- After a call on a graph of the namespace returns, every graph whose name
was newly recorded has all of its direct references recorded. -/
theorem findAux_complete (env : Env) (hnames : (env.map PGraph.name).Nodup) :
    ∀ fuel g vis L v', g ∈ env →
      findAux env fuel g vis = some (L, v') →
      ∀ G ∈ env, G.name ∈ v' → G.name ∉ vis → ∀ c ∈ refsOf env G, c.name ∈ v' := by
  intro fuel
  induction fuel with
  | zero => intro g vis L v' _ h; simp [findAux] at h
  | succ m ih =>
    intro g vis L v' hg h
    unfold findAux at h
    split at h
    · next hv =>
      cases h
      exact fun G hG hGv hGnv => absurd hGv hGnv
    · next hv =>
      intro G hG hGv' hGvis
      by_cases hGg : G.name = g.name
      · -- the argument itself: its references are all processed by the loop
        have hGeq : G = g := name_inj env hnames hG hg hGg
        subst hGeq
        obtain ⟨_, hts, _⟩ :=
          findLoop_grow _ (fun t vis L v' h => findAux_grow env m t vis L v' h) _ _ _ _ _ h
        intro c hc
        exact hts c hc
      · -- a graph visited inside the loop
        exact findLoop_complete env (g.name :: vis) _
          (fun t vis L v' h => (findAux_grow env m t vis L v' h).1)
          (fun t vis L v' ht h => ih t vis L v' ht h)
          _ _ _ _ _ (fun t ht => refsOf_subset_env env g t ht)
          (fun G' _ hin hnin => absurd hin hnin) h
          G hG hGv' (by simp [hGvis, hGg])

/-- A before-pair survives `nameAppend`. -/
theorem pair_sublist_nameAppend {a : List String} {x y : String} (n : String)
    (h : [x, y].Sublist a) : [x, y].Sublist (nameAppend a n) := by
  obtain ⟨ext, he⟩ := nameAppend_sub a n
  rw [he]
  exact h.trans (List.sublist_append_left a ext)

/-- The loop preserves the dependency-ordering invariant: every collected
graph is preceded by each of its direct references, except those whose name
was already visited when the enclosing call started (`vis0`). -/
theorem findLoop_order (env : Env) (hnames : (env.map PGraph.name).Nodup)
    (hacyc : ∀ G ∈ env, ¬ ReachesRef env G G)
    (g : PGraph) (hg : g ∈ env) (vis0 : List String) (fuel : Nat)
    (ihord : ∀ t vis L v', t ∈ env →
      findAux env fuel t vis = some (L, v') →
      (∀ G ∈ env, G.name ∈ vis →
        (∀ c ∈ refsOf env G, c.name ∈ vis) ∨ RReachesRef env G t) →
      ∀ y ∈ L, ∀ x ∈ refsOf env y, x.name ∈ vis ∨ [x.name, y.name].Sublist (gnames L)) :
    ∀ ts acc vis L v',
      (∀ t ∈ ts, t ∈ refsOf env g) →
      (∀ y ∈ acc, y ∈ env) →
      (∀ y ∈ acc, ReachesRef env g y) →
      (∀ y ∈ acc, ∀ x ∈ refsOf env y,
        x.name ∈ vis0 ∨ [x.name, y.name].Sublist (gnames acc)) →
      (∀ n ∈ vis, n ∉ vis0 → n = g.name ∨ n ∈ gnames acc) →
      (∀ y ∈ acc, y.name ∈ vis) →
      (∀ G ∈ env, G.name ∈ vis →
        (∀ c ∈ refsOf env G, c.name ∈ vis) ∨ RReachesRef env G g) →
      findLoop (findAux env fuel) ts acc vis = some (L, v') →
      ∀ y ∈ L, ∀ x ∈ refsOf env y,
        x.name ∈ vis0 ∨ [x.name, y.name].Sublist (gnames L) := by
  intro ts
  induction ts with
  | nil =>
    intro acc vis L v' _ _ _ hord _ _ _ h
    cases h
    exact hord
  | cons t ts ih =>
    intro acc vis L v' hts henv hreach hord hvnew haccvis hpre h
    unfold findLoop at h
    cases hf0 : findAux env fuel t vis with
    | none =>
      rw [hf0] at h
      exact absurd h (by simp)
    | some r =>
      obtain ⟨sub, vis1⟩ := r
      rw [hf0] at h
      have h : findLoop (findAux env fuel) ts (appendNew (mergeDedup acc sub) t) vis1
          = some (L, v') := h
      -- facts about the recursive call
      have htg : t ∈ refsOf env g := hts t (by simp)
      have htenv : t ∈ env := refsOf_subset_env env g t htg
      obtain ⟨hsubenv, hsubreach, hsubrefs⟩ := findAux_envreach env fuel t vis sub vis1 hf0
      obtain ⟨⟨pre1, hpre1⟩, htn1, hsubv⟩ := findAux_grow env fuel t vis sub vis1 hf0
      have hsubnodup : (gnames sub).Nodup := findAux_nodup env fuel t vis sub vis1 hf0
      have hnew := findAux_new env fuel t vis sub vis1 hf0
      have hcomp := findAux_complete env hnames fuel t vis sub vis1 htenv hf0
      have hmono1 : ∀ n, n ∈ vis → n ∈ vis1 := by
        intro n hn
        rw [hpre1]
        exact List.mem_append.mpr (Or.inr hn)
      have hpre_t : ∀ G ∈ env, G.name ∈ vis →
          (∀ c ∈ refsOf env G, c.name ∈ vis) ∨ RReachesRef env G t := by
        intro G hG hGv
        rcases hpre G hG hGv with hc | hr
        · exact Or.inl hc
        · exact Or.inr (Relation.ReflTransGen.tail hr htg)
      have hordsub := ihord t vis sub vis1 htenv hf0 hpre_t
      have hproj : gnames (appendNew (mergeDedup acc sub) t)
          = nameAppend (nameMerge (gnames acc) (gnames sub)) t.name := by
        rw [gnames_appendNew, gnames_mergeDedup]
      -- invariants for the remaining loop iterations
      have henv' : ∀ y ∈ appendNew (mergeDedup acc sub) t, y ∈ env := by
        intro y hy
        rcases mem_appendNew hy with hy | rfl
        · rcases mem_mergeDedup hy with hy | hy
          · exact henv y hy
          · exact hsubenv y hy
        · exact htenv
      have hreach' : ∀ y ∈ appendNew (mergeDedup acc sub) t, ReachesRef env g y := by
        intro y hy
        rcases mem_appendNew hy with hy | rfl
        · rcases mem_mergeDedup hy with hy | hy
          · exact hreach y hy
          · exact Relation.TransGen.head htg (hsubreach y hy)
        · exact Relation.TransGen.single htg
      have hord' : ∀ y ∈ appendNew (mergeDedup acc sub) t, ∀ x ∈ refsOf env y,
          x.name ∈ vis0 ∨ [x.name, y.name].Sublist (gnames (appendNew (mergeDedup acc sub) t)) := by
        intro y hy x hx
        have hxenv : x ∈ env := refsOf_subset_env env y x hx
        rw [hproj]
        by_cases hyacc : y ∈ acc
        · rcases hord y hyacc x hx with hl | hp
          · exact Or.inl hl
          · exact Or.inr (pair_sublist_nameAppend _ (pair_sublist_nameMerge_left hp))
        · rcases mem_appendNew hy with hy2 | rfl
          · -- y was merged in from the recursive call's result
            have hysub : y ∈ sub := by
              rcases mem_mergeDedup hy2 with hc | hc
              · exact absurd hc hyacc
              · exact hc
            have hyenv : y ∈ env := hsubenv y hysub
            have hyreach : ReachesRef env g y :=
              Relation.TransGen.head htg (hsubreach y hysub)
            have hynotA : y.name ∉ gnames acc := by
              intro hmem
              obtain ⟨G, hGacc, hGn⟩ := List.mem_map.mp hmem
              exact hyacc (name_inj env hnames (henv G hGacc) hyenv hGn ▸ hGacc)
            rcases hordsub y hysub x hx with hxvis | hp
            · by_cases hxv0 : x.name ∈ vis0
              · exact Or.inl hxv0
              · rcases hvnew x.name hxvis hxv0 with hxg | hxA
                · -- x is the enclosing call's argument: a reference cycle
                  have hxeq : x = g := name_inj env hnames hxenv hg hxg
                  subst hxeq
                  exact absurd (Relation.TransGen.tail hyreach hx) (hacyc x hg)
                · refine Or.inr (pair_sublist_nameAppend _ ?_)
                  exact pair_sublist_nameMerge_mem hxA hynotA
                    (List.mem_map.mpr ⟨y, hysub, rfl⟩)
            · exact Or.inr (pair_sublist_nameAppend _
                (pair_sublist_nameMerge_right hsubnodup hp hynotA))
          · -- y is the reference processed in this iteration
            have htsub : y ∉ sub := fun hc => hacyc y (henv' y hy) (hsubreach y hc)
            have htnm : y.name ∉ nameMerge (gnames acc) (gnames sub) := by
              rw [mem_nameMerge]
              rintro (hc | hc)
              · obtain ⟨G, hGacc, hGn⟩ := List.mem_map.mp hc
                exact hyacc (name_inj env hnames (henv G hGacc) htenv hGn ▸ hGacc)
              · obtain ⟨G, hGsub, hGn⟩ := List.mem_map.mp hc
                exact htsub (name_inj env hnames (hsubenv G hGsub) htenv hGn ▸ hGsub)
            have happ : nameAppend (nameMerge (gnames acc) (gnames sub)) y.name
                = nameMerge (gnames acc) (gnames sub) ++ [y.name] := by
              unfold nameAppend
              rw [if_neg htnm]
            by_cases htvis : y.name ∈ vis
            · -- already-visited reference: its references are complete or it
              -- sits on a path back to the enclosing argument
              rcases hpre y htenv htvis with hcomp' | hrr
              · have hxvis : x.name ∈ vis := hcomp' x hx
                by_cases hxv0 : x.name ∈ vis0
                · exact Or.inl hxv0
                · rcases hvnew x.name hxvis hxv0 with hxg | hxA
                  · have hxeq : x = g := name_inj env hnames hxenv hg hxg
                    subst hxeq
                    exact absurd (Relation.TransGen.head htg (Relation.TransGen.single hx))
                      (hacyc x hg)
                  · refine Or.inr ?_
                    rw [happ]
                    exact pair_sublist_append (mem_nameMerge.mpr (Or.inl hxA)) (by simp)
              · exact absurd (Relation.TransGen.tail' hrr htg) (hacyc y htenv)
            · -- freshly entered reference: its references were all collected
              have hxS : x.name ∈ gnames sub := hsubrefs htvis x hx
              refine Or.inr ?_
              rw [happ]
              exact pair_sublist_append (mem_nameMerge.mpr (Or.inr hxS)) (by simp)
      have hvnew' : ∀ n ∈ vis1, n ∉ vis0 →
          n = g.name ∨ n ∈ gnames (appendNew (mergeDedup acc sub) t) := by
        intro n hn hnv0
        by_cases hnv : n ∈ vis
        · rcases hvnew n hnv hnv0 with hng | hnA
          · exact Or.inl hng
          · exact Or.inr (gnames_appendNew_mono t (gnames_mergeDedup_left hnA))
        · rcases hnew n hn hnv with rfl | hnS
          · exact Or.inr (name_mem_appendNew_self _ t)
          · exact Or.inr (gnames_appendNew_mono t (gnames_mergeDedup_right hnS))
      have haccvis' : ∀ y ∈ appendNew (mergeDedup acc sub) t, y.name ∈ vis1 := by
        intro y hy
        rcases mem_appendNew hy with hy | rfl
        · rcases mem_mergeDedup hy with hy | hy
          · exact hmono1 _ (haccvis y hy)
          · exact hsubv y hy
        · exact htn1
      have hpre' : ∀ G ∈ env, G.name ∈ vis1 →
          (∀ c ∈ refsOf env G, c.name ∈ vis1) ∨ RReachesRef env G g := by
        intro G hG hGv1
        by_cases hGv : G.name ∈ vis
        · rcases hpre G hG hGv with hc | hr
          · exact Or.inl (fun c hc' => hmono1 _ (hc c hc'))
          · exact Or.inr hr
        · exact Or.inl (hcomp G hG hGv1 hGv)
      exact ih _ _ _ _ (fun u hu => hts u (by simp [hu]))
        henv' hreach' hord' hvnew' haccvis' hpre' h

/-- Each call of the discoverer collects every graph after all of its direct
references, apart from references already visited when the call started. -/
theorem findAux_order (env : Env) (hnames : (env.map PGraph.name).Nodup)
    (hacyc : ∀ G ∈ env, ¬ ReachesRef env G G) :
    ∀ fuel g vis L v', g ∈ env →
      findAux env fuel g vis = some (L, v') →
      (∀ G ∈ env, G.name ∈ vis →
        (∀ c ∈ refsOf env G, c.name ∈ vis) ∨ RReachesRef env G g) →
      ∀ y ∈ L, ∀ x ∈ refsOf env y,
        x.name ∈ vis ∨ [x.name, y.name].Sublist (gnames L) := by
  intro fuel
  induction fuel with
  | zero => intro g vis L v' _ h; simp [findAux] at h
  | succ m ih =>
    intro g vis L v' hg h hpre
    unfold findAux at h
    split at h
    · next hv =>
      cases h
      simp
    · next hv =>
      have hpre' : ∀ G ∈ env, G.name ∈ g.name :: vis →
          (∀ c ∈ refsOf env G, c.name ∈ g.name :: vis) ∨ RReachesRef env G g := by
        intro G hG hGv
        rcases List.mem_cons.mp hGv with hGg | hGv
        · have : G = g := name_inj env hnames hG hg hGg
          subst this
          exact Or.inr Relation.ReflTransGen.refl
        · rcases hpre G hG hGv with hc | hr
          · exact Or.inl (fun c hc' => List.mem_cons_of_mem _ (hc c hc'))
          · exact Or.inr hr
      have hvnew0 : ∀ n ∈ g.name :: vis, n ∉ vis → n = g.name ∨ n ∈ gnames ([] : List PGraph) := by
        intro n hn hnv
        rcases List.mem_cons.mp hn with rfl | hn
        · exact Or.inl rfl
        · exact absurd hn hnv
      exact findLoop_order env hnames hacyc g hg vis m ih
        _ _ _ _ _ (fun t ht => ht) (by simp) (by simp) (by simp)
        hvnew0 (by simp) hpre' h

/-! ## Termination: sufficient fuel and fuel-monotonicity -/

/-- Number of namespace graph names not yet visited — the decreasing measure
of the traversal. -/
def uDiff (env : Env) (vis : List String) : Nat :=
  ((env.map PGraph.name).toFinset \ vis.toFinset).card

theorem uDiff_mono (env : Env) {vis vis' : List String}
    (h : ∀ n ∈ vis, n ∈ vis') : uDiff env vis' ≤ uDiff env vis := by
  apply Finset.card_le_card
  intro n hn
  rw [Finset.mem_sdiff] at hn ⊢
  refine ⟨hn.1, fun hc => hn.2 ?_⟩
  rw [List.mem_toFinset] at hc ⊢
  exact h n hc

theorem uDiff_insert (env : Env) {vis : List String} {g : PGraph}
    (hg : g ∈ env) (hnv : g.name ∉ vis) :
    uDiff env (g.name :: vis) + 1 ≤ uDiff env vis := by
  unfold uDiff
  have hmem : g.name ∈ (env.map PGraph.name).toFinset \ vis.toFinset := by
    rw [Finset.mem_sdiff, List.mem_toFinset, List.mem_toFinset]
    exact ⟨List.mem_map.mpr ⟨g, hg, rfl⟩, hnv⟩
  have hcons : (g.name :: vis).toFinset = insert g.name vis.toFinset :=
    List.toFinset_cons
  rw [hcons, Finset.sdiff_insert]
  have hcard := Finset.card_erase_of_mem hmem
  have hpos : 0 < ((env.map PGraph.name).toFinset \ vis.toFinset).card :=
    Finset.card_pos.mpr ⟨g.name, hmem⟩
  omega

/-- The loop never runs out of fuel when every reference can be afforded. -/
theorem findLoop_fuel (env : Env) (fuel : Nat)
    (hf : ∀ t vis, t ∈ env → uDiff env vis + 1 ≤ fuel →
      (findAux env fuel t vis).isSome) :
    ∀ ts acc vis, (∀ t ∈ ts, t ∈ env) → uDiff env vis + 1 ≤ fuel →
      (findLoop (findAux env fuel) ts acc vis).isSome := by
  intro ts
  induction ts with
  | nil => intro acc vis _ _; simp [findLoop]
  | cons t ts ih =>
    intro acc vis hts hfu
    unfold findLoop
    cases hf0 : findAux env fuel t vis with
    | none =>
      have := hf t vis (hts t (by simp)) hfu
      rw [hf0] at this
      cases this
    | some r =>
      obtain ⟨sub, vis1⟩ := r
      have hgrow := (findAux_grow env fuel t vis sub vis1 hf0).1
      obtain ⟨pre, hpre⟩ := hgrow
      have hsub : ∀ n ∈ vis, n ∈ vis1 := by
        intro n hn
        rw [hpre]
        exact List.mem_append.mpr (Or.inr hn)
      have : uDiff env vis1 + 1 ≤ fuel :=
        le_trans (by have := uDiff_mono env hsub; omega) hfu
      exact ih _ _ (fun u hu => hts u (by simp [hu])) this

/-- A call on a namespace graph succeeds once the fuel exceeds the number of
unvisited namespace names. -/
theorem findAux_fuel (env : Env) : ∀ fuel g vis, g ∈ env →
    uDiff env vis + 1 ≤ fuel → (findAux env fuel g vis).isSome := by
  intro fuel
  induction fuel with
  | zero => intro g vis _ h; omega
  | succ m ih =>
    intro g vis hg hfu
    unfold findAux
    split
    · simp
    · next hnv =>
      apply findLoop_fuel env m ih
      · exact fun t ht => refsOf_subset_env env g t ht
      · have := uDiff_insert env hg hnv
        omega

/-- The top-level call always succeeds with the chosen fuel, whether or not
the root graph itself lives in the namespace. -/
theorem findAux_total (env : Env) (g : PGraph) :
    (findAux env (env.length + 2) g []).isSome := by
  unfold findAux
  split
  · simp
  · apply findLoop_fuel env (env.length + 1)
      (fun t vis ht hfu => findAux_fuel env (env.length + 1) t vis ht hfu)
    · exact fun t ht => refsOf_subset_env env g t ht
    · have h1 : uDiff env [g.name] ≤ (env.map PGraph.name).toFinset.card :=
        Finset.card_le_card (Finset.sdiff_subset)
      have h2 : (env.map PGraph.name).toFinset.card ≤ (env.map PGraph.name).length :=
        (env.map PGraph.name).toFinset_card_le
      have h3 : (env.map PGraph.name).length = env.length := List.length_map _ _
      omega

/-- More fuel never changes a successful loop outcome. -/
theorem findLoop_mono (f f' : PGraph → List String → Option (List PGraph × List String))
    (hf : ∀ t vis r, f t vis = some r → f' t vis = some r) :
    ∀ ts acc vis r, findLoop f ts acc vis = some r → findLoop f' ts acc vis = some r := by
  intro ts
  induction ts with
  | nil => intro acc vis r h; exact h
  | cons t ts ih =>
    intro acc vis r h
    unfold findLoop at h ⊢
    cases hf0 : f t vis with
    | none =>
      rw [hf0] at h
      exact absurd h (by simp)
    | some s =>
      obtain ⟨sub, vis1⟩ := s
      rw [hf0] at h
      rw [hf t vis (sub, vis1) hf0]
      exact ih _ _ _ h

/-- More fuel never changes a successful call outcome. -/
theorem findAux_mono (env : Env) : ∀ fuel g vis r,
    findAux env fuel g vis = some r → findAux env (fuel + 1) g vis = some r := by
  intro fuel
  induction fuel with
  | zero => intro g vis r h; simp [findAux] at h
  | succ m ih =>
    intro g vis r h
    unfold findAux at h ⊢
    split at h
    · next hv => rw [if_pos hv]; exact h
    · next hv =>
      rw [if_neg hv]
      exact findLoop_mono _ _ (fun t vis r h => ih t vis r h) _ _ _ _ h

/-- More fuel, iterated. -/
theorem findAux_mono_le (env : Env) {fuel fuel' : Nat} (hle : fuel ≤ fuel') :
    ∀ g vis r, findAux env fuel g vis = some r → findAux env fuel' g vis = some r := by
  induction fuel' with
  | zero =>
    intro g vis r h
    have : fuel = 0 := Nat.le_zero.mp hle
    subst this
    exact h
  | succ m ih =>
    intro g vis r h
    rcases Nat.lt_or_ge fuel (m + 1) with hlt | hge
    · exact findAux_mono env m g vis r (ih (Nat.lt_succ_iff.mp hlt) g vis r h)
    · have : fuel = m + 1 := le_antisymm hle hge
      subst this
      exact h

/-! ## Concrete instances and acyclicity helper -/

/-- Reference targets lie in the namespace, so reference paths stay in it. -/
theorem reachesRef_mem_env (env : Env) {a b : PGraph} (h : ReachesRef env a b) :
    b ∈ env := by
  induction h with
  | single hs => exact refsOf_subset_env _ _ _ hs
  | tail _ hs _ => exact refsOf_subset_env _ _ _ hs

/-- A rank function that strictly decreases along direct references proves
the reference graph acyclic. -/
theorem acyclic_of_rank (env : Env) (f : PGraph → Nat)
    (h : ∀ a ∈ env, ∀ b ∈ refsOf env a, f b < f a) :
    ∀ G ∈ env, ¬ ReachesRef env G G := by
  have key : ∀ a b, ReachesRef env a b → a ∈ env → f b < f a := by
    intro a b hr
    induction hr with
    | single hs => exact fun ha => h _ ha _ hs
    | tail hr hs ih =>
      exact fun ha => lt_trans (h _ (reachesRef_mem_env env hr) _ hs) (ih ha)
  intro G hG hr
  exact absurd (key G G hr hG) (lt_irrefl _)

/-- A group node referencing the graph named `target`. -/
def groupNode (nm target : String) : PNode :=
  { name := nm, blIdname := "GeometryNodeGroup", nodeTree := some target }

/-- Two graphs referencing each other (the spec's cycle example). -/
def cycGraphA : PGraph :=
  { name := "A", blIdname := "GeometryNodeTree", nodes := [groupNode "g0" "B"] }

def cycGraphB : PGraph :=
  { name := "B", blIdname := "GeometryNodeTree", nodes := [groupNode "g0" "A"] }

def cycEnv : Env := [cycGraphA, cycGraphB]

/-- A graph referencing itself. -/
def selfGraph : PGraph :=
  { name := "S", blIdname := "GeometryNodeTree", nodes := [groupNode "g0" "S"] }

/-- A diamond: R references A and B, both referencing C (shared
sub-dependency, acyclic). -/
def diaC : PGraph := { name := "C", blIdname := "GeometryNodeTree", nodes := [] }

def diaA : PGraph :=
  { name := "A", blIdname := "GeometryNodeTree", nodes := [groupNode "g0" "C"] }

def diaB : PGraph :=
  { name := "B", blIdname := "GeometryNodeTree", nodes := [groupNode "g0" "C"] }

def diaR : PGraph :=
  { name := "R", blIdname := "GeometryNodeTree",
    nodes := [groupNode "g0" "A", groupNode "g1" "B"] }

def diaEnv : Env := [diaR, diaA, diaB, diaC]

/-- Rank witnessing acyclicity of the diamond. -/
def diaRank (G : PGraph) : Nat :=
  if G.name = "R" then 3 else if G.name = "C" then 1 else 2

/-! ## Claims about the dependency discoverer (C1, C2, C3) -/

/-- **C1 (counterexample).** On a reference cycle (graph A references graph
B which references A back), `find_nested_node_groups(A)` returns `[A, B]`:
graph B is referenced by A yet does not precede it, and the root A itself
appears in the dependency list, so `export_node_group_to_python` would emit
its construction routine twice.  The claim's ordering/no-duplicate property
is therefore false as stated for arbitrary reference graphs. -/
theorem find_nested_order_cycle_counterexample :
    find_nested_node_groups cycEnv cycGraphA = [cycGraphA, cycGraphB] ∧
    cycGraphB ∈ refsOf cycEnv cycGraphA ∧
    ¬ [cycGraphB.name, cycGraphA.name].Sublist
        (gnames (find_nested_node_groups cycEnv cycGraphA)) := by
  refine ⟨rfl, ?_, ?_⟩
  · have h : refsOf cycEnv cycGraphA = [cycGraphB] := rfl
    rw [h]
    exact List.mem_cons_self _ _
  · decide

/-- **C1 (amended).** For every root graph in the namespace whose reference
graph is *acyclic* (names unique), the discoverer's list — and hence the
routine-emission order, dependencies followed by the root — contains no
graph twice and places every referenced graph strictly before every graph
that references it. -/
theorem find_nested_topological (env : Env) (g : PGraph)
    (hnames : (env.map PGraph.name).Nodup) (hg : g ∈ env)
    (hacyc : ∀ G ∈ env, ¬ ReachesRef env G G) :
    (gnames (find_nested_node_groups env g ++ [g])).Nodup ∧
    ∀ y ∈ find_nested_node_groups env g ++ [g], ∀ x ∈ refsOf env y,
      [x.name, y.name].Sublist (gnames (find_nested_node_groups env g ++ [g])) := by
  cases hres : findAux env (env.length + 2) g [] with
  | none => exact absurd (findAux_total env g) (by rw [hres]; simp)
  | some r =>
    obtain ⟨L, v'⟩ := r
    have hL : find_nested_node_groups env g = L := by
      unfold find_nested_node_groups
      rw [hres]
    rw [hL]
    have hord := findAux_order env hnames hacyc _ g [] L v' hg hres (by simp)
    obtain ⟨henv, hreach, hrefs⟩ := findAux_envreach env _ g [] L v' hres
    have hnod := findAux_nodup env _ g [] L v' hres
    have happ : gnames (L ++ [g]) = gnames L ++ [g.name] := by
      unfold gnames
      rw [List.map_append]
      rfl
    have hgnotL : g.name ∉ gnames L := by
      intro hmem
      obtain ⟨y, hyL, hyn⟩ := List.mem_map.mp hmem
      have : y = g := name_inj env hnames (henv y hyL) hg hyn
      subst this
      exact hacyc y (henv y hyL) (hreach y hyL)
    constructor
    · rw [happ]
      exact List.Nodup.append hnod (by simp)
        (by simpa [List.disjoint_singleton] using hgnotL)
    · intro y hy x hx
      rw [happ]
      rcases List.mem_append.mp hy with hyL | hyg
      · rcases hord y hyL x hx with hc | hc
        · simp at hc
        · exact hc.trans (List.sublist_append_left _ _)
      · have : y = g := by simpa using hyg
        subst this
        have hxL : x.name ∈ gnames L := hrefs (by simp) x hx
        exact pair_sublist_append hxL (by simp)

/-- **C1 (witness).** The amended theorem at the diamond instance: the
emission order is `[C, A, B, R]`, duplicate-free, with the shared
sub-dependency C ahead of both A and B. -/
theorem find_nested_topological_witness :
    (gnames (find_nested_node_groups diaEnv diaR ++ [diaR])).Nodup ∧
    [diaC.name, diaA.name].Sublist
      (gnames (find_nested_node_groups diaEnv diaR ++ [diaR])) := by
  have hacyc : ∀ G ∈ diaEnv, ¬ ReachesRef diaEnv G G :=
    acyclic_of_rank diaEnv diaRank (by decide)
  have h := find_nested_topological diaEnv diaR (by decide)
    (List.mem_cons_self _ _) hacyc
  refine ⟨h.1, ?_⟩
  have hAmem : diaA ∈ find_nested_node_groups diaEnv diaR ++ [diaR] := by
    have hfind : find_nested_node_groups diaEnv diaR = [diaC, diaA, diaB] := rfl
    rw [hfind]
    simp
  have hCref : diaC ∈ refsOf diaEnv diaA := by
    have hrefs : refsOf diaEnv diaA = [diaC] := rfl
    rw [hrefs]
    exact List.mem_cons_self _ _
  exact h.2 diaA hAmem diaC hCref

/-- **C2 (counterexample).** A graph whose group node references the graph
itself: the returned list *contains* the root, contradicting the claim that
the root is always excluded, reference cycles included. -/
theorem find_nested_contains_root_on_cycle :
    find_nested_node_groups [selfGraph] selfGraph = [selfGraph] := rfl

/-- **C2 (amended).** Every entry of the returned list is transitively
referenced from the root through group nodes, and the root itself is
excluded whenever the root is not transitively reachable from itself; when
a reference cycle leads back to the root, the root appears in the list. -/
theorem find_nested_reach_and_root_exclusion (env : Env) (g : PGraph) :
    (∀ y ∈ find_nested_node_groups env g, ReachesRef env g y) ∧
    (¬ ReachesRef env g g → g ∉ find_nested_node_groups env g) := by
  cases hres : findAux env (env.length + 2) g [] with
  | none => exact absurd (findAux_total env g) (by rw [hres]; simp)
  | some r =>
    obtain ⟨L, v'⟩ := r
    have hL : find_nested_node_groups env g = L := by
      unfold find_nested_node_groups
      rw [hres]
    rw [hL]
    have hreach := (findAux_envreach env _ g [] L v' hres).2.1
    exact ⟨hreach, fun hn hmem => hn (hreach g hmem)⟩

/-- **C2 (witness).** At the diamond instance the root R is acyclic and
indeed absent from the returned list. -/
theorem find_nested_root_excluded_witness :
    diaR ∉ find_nested_node_groups diaEnv diaR := by
  have hacyc : ∀ G ∈ diaEnv, ¬ ReachesRef diaEnv G G :=
    acyclic_of_rank diaEnv diaRank (by decide)
  exact (find_nested_reach_and_root_exclusion diaEnv diaR).2
    (hacyc diaR (List.mem_cons_self _ _))

/-- **C3.** For every namespace and root graph — reference cycles included —
the discoverer terminates: the fuelled model succeeds at fuel
`env.length + 2`, every larger fuel gives the same outcome, and the
returned list holds no graph (and no graph name) more than once. -/
theorem find_nested_terminates (env : Env) (g : PGraph) :
    (findAux env (env.length + 2) g []).isSome ∧
    (∀ fuel, env.length + 2 ≤ fuel →
      findAux env fuel g [] = findAux env (env.length + 2) g []) ∧
    (gnames (find_nested_node_groups env g)).Nodup ∧
    (find_nested_node_groups env g).Nodup := by
  cases hres : findAux env (env.length + 2) g [] with
  | none => exact absurd (findAux_total env g) (by rw [hres]; simp)
  | some r =>
    obtain ⟨L, v'⟩ := r
    have hL : find_nested_node_groups env g = L := by
      unfold find_nested_node_groups
      rw [hres]
    have hnod := findAux_nodup env _ g [] L v' hres
    refine ⟨rfl, ?_, by rw [hL]; exact hnod, by rw [hL]; exact hnod.of_map⟩
    intro fuel hf
    exact findAux_mono_le env hf g [] (L, v') hres

/-- **C3 (witness).** The theorem at the cyclic instance A ⇄ B: discovery
terminates (fuel 4 suffices, fuel 10 agrees) and each of A, B occurs at most
once. -/
theorem find_nested_terminates_witness :
    (findAux cycEnv 4 cycGraphA []).isSome ∧
    findAux cycEnv 10 cycGraphA [] = findAux cycEnv 4 cycGraphA [] ∧
    (gnames (find_nested_node_groups cycEnv cycGraphA)).Nodup := by
  have h := find_nested_terminates cycEnv cycGraphA
  exact ⟨h.1, h.2.1 10 (by decide), h.2.2.1⟩

/-! ## Type resolver and node-property exporter -/

/-- Embedding of `get_node_tree_type` (src/__init__.py:98-109): recognise
the four tree kinds, pass anything else through unchanged. -/
def get_node_tree_type (node_tree : PGraph) : String :=
  let tree_type := node_tree.blIdname
  if tree_type = "ShaderNodeTree" then "ShaderNodeTree"
  else if tree_type = "GeometryNodeTree" then "GeometryNodeTree"
  else if tree_type = "CompositorNodeTree" then "CompositorNodeTree"
  else if tree_type = "TextureNodeTree" then "TextureNodeTree"
  else tree_type

/-- Embedding of `get_socket_default_value` (src/__init__.py:71-77). -/
def get_socket_default_value (socket : PSocket) : Except Unit (Option String) :=
  if socket.hasDefault then format_value socket.defaultVal else Except.ok none

/-- `hasattr(node, k)` for a configuration attribute, modelled by presence
in the attribute bag. -/
def hasAttr (nd : PNode) (k : String) : Bool :=
  (nd.attrs.lookup k).isSome

/-- `getattr(node, k)` for a configuration attribute, pre-rendered as the
f-string interpolates it. -/
def getAttr (nd : PNode) (k : String) : String :=
  (nd.attrs.lookup k).getD ""

/-- An `    {var}.{attr} = '{value}'` statement (enum-valued attribute). -/
def enumLine (var attr value : String) : String :=
  "    " ++ var ++ "." ++ attr ++ " = '" ++ value ++ "'"

/-- An `    {var}.{attr} = {value}` statement (plain-valued attribute). -/
def plainLine (var attr value : String) : String :=
  "    " ++ var ++ "." ++ attr ++ " = " ++ value

/-- `SKIP_PROPS` (src/__init__.py:112-121). -/
def SKIP_PROPS : List String :=
  ["name", "label", "location", "width", "width_hidden", "height",
   "dimensions", "type", "bl_idname", "bl_label", "bl_description",
   "bl_icon", "bl_static_type", "bl_width_default", "bl_width_min",
   "bl_width_max", "bl_height_default", "bl_height_min", "bl_height_max",
   "color", "use_custom_color", "select", "show_options", "show_preview",
   "hide", "mute", "show_texture", "inputs", "outputs", "internal_links",
   "parent", "rna_type", "is_registered_node_type", "location_absolute",
   "warning_propagation", "is_active_output"]

/-- The color-ramp element statements of the `ShaderNodeValToRGB` branch. -/
def rampElemLines (var : String) (k : Nat) (elem : RampElem) : List String :=
  if k = 0 then
    ["    " ++ var ++ ".color_ramp.elements[0].position = " ++ elem.positionR,
     "    " ++ var ++ ".color_ramp.elements[0].color = " ++ elem.colorR]
  else
    ["    elem_" ++ toString k ++ " = " ++ var ++ ".color_ramp.elements.new(" ++ elem.positionR ++ ")",
     "    elem_" ++ toString k ++ ".color = " ++ elem.colorR]

/-- The `if "{name}" in bpy.data.node_groups` guard emitted for a group
node's nested-tree binding (both the `GeometryNodeGroup` and
`ShaderNodeGroup` branches emit this text). -/
def nestedGroupBindLines (var nm : String) : List String :=
  ["    # Nested node group: " ++ nm,
   "    if \"" ++ nm ++ "\" in bpy.data.node_groups:",
   "        " ++ var ++ ".node_tree = bpy.data.node_groups[\"" ++ nm ++ "\"]",
   "    else:",
   "        print(\"Warning: Node group \\\"" ++ nm ++ "\\\" not found. Please create it first.\")"]

/-- One property line of the generic reflective fallback. -/
def genericPropLines (var : String) (p : RnaProp) : List String :=
  if p.identifier ∈ SKIP_PROPS then []
  else if p.isReadonly then []
  else if p.ptype = "ENUM" then
    match p.value with
    | Except.ok (some v) => [enumLine var p.identifier v]
    | Except.ok none => []
    | Except.error _ => []
  else if p.ptype = "BOOLEAN" then
    match p.value with
    | Except.ok (some v) => [plainLine var p.identifier v]
    | Except.ok none => []
    | Except.error _ => []
  else []

/-- Embedding of `export_node_properties` (src/__init__.py:513-829): the
per-kind dispatch table, then the generic reflective fallback.  The function
appends to the caller's line list in the source; here it returns the lines
it would append.  All fallible attribute reads inside it are swallowed
(`try`/`except`), so it never raises. -/
def export_node_properties (node : PNode) (var : String) : List String :=
  if node.blIdname = "ShaderNodeMath" then
    [enumLine var "operation" (getAttr node "operation")] ++
    (if hasAttr node "use_clamp" then [plainLine var "use_clamp" (getAttr node "use_clamp")] else [])
  else if node.blIdname = "ShaderNodeVectorMath" then
    [enumLine var "operation" (getAttr node "operation")]
  else if node.blIdname = "ShaderNodeMix" then
    [enumLine var "data_type" (getAttr node "data_type"),
     enumLine var "blend_type" (getAttr node "blend_type"),
     plainLine var "clamp_factor" (getAttr node "clamp_factor"),
     plainLine var "clamp_result" (getAttr node "clamp_result")]
  else if node.blIdname = "ShaderNodeMixRGB" then
    [enumLine var "blend_type" (getAttr node "blend_type"),
     plainLine var "use_clamp" (getAttr node "use_clamp")]
  else if node.blIdname = "ShaderNodeMapRange" then
    [enumLine var "data_type" (getAttr node "data_type"),
     enumLine var "interpolation_type" (getAttr node "interpolation_type"),
     plainLine var "clamp" (getAttr node "clamp")]
  else if node.blIdname = "ShaderNodeValToRGB" then
    ["    # Color Ramp settings",
     enumLine (var ++ ".color_ramp") "color_mode" node.colorRampColorMode,
     enumLine (var ++ ".color_ramp") "interpolation" node.colorRampInterpolation,
     "    # Remove default elements and add new ones",
     "    while len(" ++ var ++ ".color_ramp.elements) > 1:",
     "        " ++ var ++ ".color_ramp.elements.remove(" ++ var ++ ".color_ramp.elements[0])"] ++
    (node.colorRampElements.enum.map (fun p => rampElemLines var p.1 p.2)).flatten
  else if node.blIdname = "ShaderNodeTexNoise" then
    [enumLine var "noise_dimensions" (getAttr node "noise_dimensions")] ++
    (if hasAttr node "noise_type" then [enumLine var "noise_type" (getAttr node "noise_type")] else []) ++
    (if hasAttr node "normalize" then [plainLine var "normalize" (getAttr node "normalize")] else [])
  else if node.blIdname = "ShaderNodeTexVoronoi" then
    [enumLine var "voronoi_dimensions" (getAttr node "voronoi_dimensions"),
     enumLine var "feature" (getAttr node "feature"),
     enumLine var "distance" (getAttr node "distance")] ++
    (if hasAttr node "normalize" then [plainLine var "normalize" (getAttr node "normalize")] else [])
  else if node.blIdname = "ShaderNodeTexGradient" then
    [enumLine var "gradient_type" (getAttr node "gradient_type")]
  else if node.blIdname = "ShaderNodeTexWave" then
    [enumLine var "wave_type" (getAttr node "wave_type"),
     enumLine var "bands_direction" (getAttr node "bands_direction"),
     enumLine var "wave_profile" (getAttr node "wave_profile")]
  else if node.blIdname = "ShaderNodeTexMusgrave" then
    [enumLine var "musgrave_dimensions" (getAttr node "musgrave_dimensions"),
     enumLine var "musgrave_type" (getAttr node "musgrave_type")]
  else if node.blIdname = "ShaderNodeTexImage" then
    (match node.image with
     | some nm =>
       ["    # Note: Image \"" ++ nm ++ "\" needs to be loaded separately",
        "    # " ++ var ++ ".image = bpy.data.images.load(\"path/to/image\")"]
     | none => []) ++
    [enumLine var "interpolation" (getAttr node "interpolation"),
     enumLine var "projection" (getAttr node "projection"),
     enumLine var "extension" (getAttr node "extension")]
  else if node.blIdname = "ShaderNodeBsdfPrincipled" then
    [enumLine var "distribution" (getAttr node "distribution"),
     enumLine var "subsurface_method" (getAttr node "subsurface_method")]
  else if node.blIdname = "ShaderNodeBump" then
    [plainLine var "invert" (getAttr node "invert")]
  else if node.blIdname = "ShaderNodeNormalMap" then
    [enumLine var "space" (getAttr node "space")]
  else if node.blIdname = "ShaderNodeSeparateColor" then
    [enumLine var "mode" (getAttr node "mode")]
  else if node.blIdname = "ShaderNodeCombineColor" then
    [enumLine var "mode" (getAttr node "mode")]
  else if node.blIdname = "ShaderNodeClamp" then
    [enumLine var "clamp_type" (getAttr node "clamp_type")]
  else if node.blIdname = "ShaderNodeVectorRotate" then
    [enumLine var "rotation_type" (getAttr node "rotation_type"),
     plainLine var "invert" (getAttr node "invert")]
  else if node.blIdname = "GeometryNodeGroup" then
    match node.nodeTree with
    | some nm => nestedGroupBindLines var nm
    | none => []
  else if node.blIdname = "ShaderNodeGroup" then
    match node.nodeTree with
    | some nm => nestedGroupBindLines var nm
    | none => []
  else if node.blIdname = "FunctionNodeCompare" then
    [enumLine var "data_type" (getAttr node "data_type"),
     enumLine var "operation" (getAttr node "operation")] ++
    (if hasAttr node "mode" then [enumLine var "mode" (getAttr node "mode")] else [])
  else if node.blIdname = "GeometryNodeSwitch" then
    [enumLine var "input_type" (getAttr node "input_type")]
  else if node.blIdname = "FunctionNodeBooleanMath" then
    [enumLine var "operation" (getAttr node "operation")]
  else if node.blIdname = "GeometryNodeObjectInfo" then
    [enumLine var "transform_space" (getAttr node "transform_space")]
  else if node.blIdname = "GeometryNodeCollectionInfo" then
    [enumLine var "transform_space" (getAttr node "transform_space")]
  else if node.blIdname = "GeometryNodeRaycast" then
    [enumLine var "data_type" (getAttr node "data_type")]
  else if node.blIdname = "GeometryNodeAttributeStatistic" then
    [enumLine var "data_type" (getAttr node "data_type"),
     enumLine var "domain" (getAttr node "domain")]
  else if node.blIdname = "GeometryNodeCaptureAttribute" then
    [enumLine var "data_type" (getAttr node "data_type"),
     enumLine var "domain" (getAttr node "domain")]
  else if node.blIdname = "GeometryNodeStoreNamedAttribute" then
    [enumLine var "data_type" (getAttr node "data_type"),
     enumLine var "domain" (getAttr node "domain")]
  else if node.blIdname = "GeometryNodeInputNamedAttribute" then
    [enumLine var "data_type" (getAttr node "data_type")]
  else if node.blIdname = "GeometryNodeSampleIndex" then
    [enumLine var "data_type" (getAttr node "data_type"),
     enumLine var "domain" (getAttr node "domain"),
     plainLine var "clamp" (getAttr node "clamp")]
  else if node.blIdname = "GeometryNodeSampleNearest" then
    [enumLine var "domain" (getAttr node "domain")]
  else if node.blIdname = "GeometryNodeProximity" then
    [enumLine var "target_element" (getAttr node "target_element")]
  else if node.blIdname = "GeometryNodeMeshBoolean" then
    [enumLine var "operation" (getAttr node "operation")]
  else if node.blIdname = "GeometryNodeSubdivisionSurface" then
    [enumLine var "uv_smooth" (getAttr node "uv_smooth"),
     enumLine var "boundary_smooth" (getAttr node "boundary_smooth")]
  else if node.blIdname = "GeometryNodeExtrudeMesh" then
    [enumLine var "mode" (getAttr node "mode")]
  else if node.blIdname = "GeometryNodeDeleteGeometry" then
    [enumLine var "domain" (getAttr node "domain"),
     enumLine var "mode" (getAttr node "mode")]
  else if node.blIdname = "GeometryNodeSeparateGeometry" then
    [enumLine var "domain" (getAttr node "domain")]
  else if node.blIdname = "GeometryNodeMergeByDistance" then
    [enumLine var "mode" (getAttr node "mode")]
  else if node.blIdname = "GeometryNodeMeshToPoints" then
    [enumLine var "mode" (getAttr node "mode")]
  else if node.blIdname = "GeometryNodeDistributePointsOnFaces" then
    [enumLine var "distribute_method" (getAttr node "distribute_method")] ++
    (if hasAttr node "use_legacy_normal" then
      [plainLine var "use_legacy_normal" (getAttr node "use_legacy_normal")] else [])
  else if node.blIdname = "GeometryNodeCurvePrimitiveCircle" then
    [enumLine var "mode" (getAttr node "mode")]
  else if node.blIdname = "GeometryNodeCurvePrimitiveLine" then
    [enumLine var "mode" (getAttr node "mode")]
  else if node.blIdname = "GeometryNodeCurvePrimitiveQuadrilateral" then
    [enumLine var "mode" (getAttr node "mode")]
  else if node.blIdname = "GeometryNodeFillCurve" then
    [enumLine var "mode" (getAttr node "mode")]
  else if node.blIdname = "GeometryNodeResampleCurve" then
    [enumLine var "mode" (getAttr node "mode")]
  else if node.blIdname = "GeometryNodeTrimCurve" then
    [enumLine var "mode" (getAttr node "mode")]
  else if node.blIdname = "GeometryNodeSetCurveHandlePositions" then
    [enumLine var "mode" (getAttr node "mode")]
  else if node.blIdname = "GeometryNodeCurveHandleTypeSelection" then
    [enumLine var "mode" (getAttr node "mode"),
     enumLine var "handle_type" (getAttr node "handle_type")]
  else if node.blIdname = "GeometryNodeSetCurveHandleType" then
    [enumLine var "mode" (getAttr node "mode"),
     enumLine var "handle_type" (getAttr node "handle_type")]
  else if node.blIdname = "GeometryNodeSetSplineType" then
    [enumLine var "spline_type" (getAttr node "spline_type")]
  else if node.blIdname = "GeometryNodeViewer" then
    [enumLine var "data_type" (getAttr node "data_type")] ++
    (if hasAttr node "domain" then [enumLine var "domain" (getAttr node "domain")] else [])
  else if node.blIdname = "GeometryNodeAccumulateField" then
    [enumLine var "data_type" (getAttr node "data_type"),
     enumLine var "domain" (getAttr node "domain")]
  else if node.blIdname = "GeometryNodeFieldAtIndex" then
    [enumLine var "data_type" (getAttr node "data_type"),
     enumLine var "domain" (getAttr node "domain")]
  else if node.blIdname = "FunctionNodeRandomValue" then
    [enumLine var "data_type" (getAttr node "data_type")]
  else if node.blIdname = "GeometryNodeTriangulate" then
    (if hasAttr node "quad_method" then [enumLine var "quad_method" (getAttr node "quad_method")] else []) ++
    (if hasAttr node "ngon_method" then [enumLine var "ngon_method" (getAttr node "ngon_method")] else [])
  else if node.blIdname = "GeometryNodeTransform" then []
  else if node.blIdname = "GeometryNodeSetPosition" then []
  else if node.blIdname = "GeometryNodeMeshGrid" then []
  else if node.blIdname = "GeometryNodeRealizeInstances" then []
  else
    -- generic reflective fallback, wrapped in try/except
    match node.rnaProps with
    | Except.error _ => []
    | Except.ok props => (props.map (genericPropLines var)).flatten

/-! ## Single-graph emitter

`export_single_node_group` (src/__init__.py:155-246).  Its body from the
`func_name = ...` line to the trailing blank after `return node_group`
(lines 159-244) is duplicated verbatim inside `export_node_group_to_python`
(lines 269-354); both transcriptions appear below (`sg...` for the
standalone emitter, `mg...` for the main emitter's inline copy) so their
equivalence can be stated and proved rather than assumed. -/

/-- `node_var_names` built by the node loop: name ↦ generated variable,
with the dictionary's last-assignment-wins semantics. -/
def nodeVarNamesAux : Nat → List PNode → List (String × String)
  | _, [] => []
  | i, nd :: rest =>
    (nd.name, "node_" ++ toString i ++ "_" ++ sanitize_name nd.name) :: nodeVarNamesAux (i + 1) rest

def nodeVarNames (nodes : List PNode) : List (String × String) :=
  nodeVarNamesAux 0 nodes

/-- `dict.get`: the value of the *last* entry with the key (later assignment
overwrites), `none` when absent. -/
def dictGet (d : List (String × String)) (k : String) : Option String :=
  match d with
  | [] => none
  | (k', v) :: rest =>
    match dictGet rest k with
    | some v' => some v'
    | none => if k' == k then some v else none

/-- `list(...).index(socket)`: position of the first element identical to
the socket (`sid` models object identity); `none` models the `ValueError`
that `list.index` raises when the element is absent. -/
def socketIndex : List PSocket → PSocket → Option Nat
  | [], _ => none
  | s :: rest, x => if s.sid = x.sid then some 0 else (socketIndex rest x).map (· + 1)

/-- Interface-socket declarations (lines 174-183 / 284-293). -/
def interfaceLines (g : PGraph) : List String :=
  if g.hasInterface then
    ["    # Create group interface (sockets)"] ++
    (g.interfaceItems.map (fun item =>
      if item.itemType = "SOCKET" then
        let in_out := if item.inOut = "INPUT" then "INPUT" else "OUTPUT"
        ["    node_group.interface.new_socket(name=\"" ++ item.name ++ "\", in_out='"
          ++ in_out ++ "', socket_type='" ++ item.socketType ++ "')"]
      else [])).flatten ++ [""]
  else []

/-- Guarded default-value assignments for a node's input sockets
(lines 213-224): a socket whose formatted default is the "not representable"
sentinel emits nothing; a formatting exception propagates. -/
def sgDefaultLines (var : String) : Nat → List PSocket → Except Unit (List String)
  | _, [] => Except.ok []
  | j, s :: rest =>
    if s.hasDefault && !s.isLinked then
      match get_socket_default_value s with
      | Except.error e => Except.error e
      | Except.ok none => sgDefaultLines var (j + 1) rest
      | Except.ok (some dv) => do
        let rest' ← sgDefaultLines var (j + 1) rest
        pure (["    if len(" ++ var ++ ".inputs) > " ++ toString j ++ " and hasattr("
                ++ var ++ ".inputs[" ++ toString j ++ "], \"default_value\"):",
               "        try:",
               "            " ++ var ++ ".inputs[" ++ toString j ++ "].default_value = " ++ dv,
               "        except:",
               "            pass"] ++ rest')
    else sgDefaultLines var (j + 1) rest

/-- One node's construction block (lines 189-226). -/
def sgNodeBlock (i : Nat) (node : PNode) : Except Unit (List String) := do
  let var := "node_" ++ toString i ++ "_" ++ sanitize_name node.name
  let head :=
    ["    # Node: " ++ node.name,
     "    " ++ var ++ " = node_group.nodes.new(type='" ++ node.blIdname ++ "')",
     "    " ++ var ++ ".name = \"" ++ node.name ++ "\"",
     "    " ++ var ++ ".label = \"" ++ node.label ++ "\"",
     "    " ++ var ++ ".location = (" ++ node.locXR ++ ", " ++ node.locYR ++ ")"] ++
    (if node.hasWidth then ["    " ++ var ++ ".width = " ++ node.widthR] else []) ++
    (if node.hide then ["    " ++ var ++ ".hide = True"] else []) ++
    (if node.mute then ["    " ++ var ++ ".mute = True"] else []) ++
    export_node_properties node var
  let defaults ← sgDefaultLines var 0 node.inputs
  pure (head ++ defaults ++ [""])

/-- The node loop (`for i, node in enumerate(node_group.nodes)`). -/
def sgNodesLines : Nat → List PNode → Except Unit (List String)
  | _, [] => Except.ok []
  | i, nd :: rest => do
    let block ← sgNodeBlock i nd
    let rest' ← sgNodesLines (i + 1) rest
    pure (block ++ rest')

/-- The link loop (lines 230-240): a link whose endpoint *node* has no
variable is skipped; resolving an endpoint *socket* absent from its node's
list raises (`list.index`'s `ValueError`), aborting the emitter. -/
def sgLinkLines (varNames : List (String × String)) : List PLink → Except Unit (List String)
  | [] => Except.ok []
  | l :: rest =>
    match dictGet varNames l.fromNode.name, dictGet varNames l.toNode.name with
    | some fv, some tv =>
      match socketIndex l.fromNode.outputs l.fromSocket,
            socketIndex l.toNode.inputs l.toSocket with
      | some i, some j => do
        let rest' ← sgLinkLines varNames rest
        pure (("    node_group.links.new(" ++ fv ++ ".outputs[" ++ toString i ++ "], "
                ++ tv ++ ".inputs[" ++ toString j ++ "])") :: rest')
      | _, _ => Except.error ()
    | _, _ => sgLinkLines varNames rest

/-- The construction-routine block of `export_single_node_group`
(lines 159-244): guard, allocation, interface, nodes, links, return. -/
def sgCoreLines (node_group : PGraph) : Except Unit (List String) := do
  let func_name := sanitize_name node_group.name
  let tree_type := get_node_tree_type node_group
  let nodes ← sgNodesLines 0 node_group.nodes
  let links ← sgLinkLines (nodeVarNames node_group.nodes) node_group.links
  pure (
    ["def create_" ++ func_name ++ "_node_group():",
     "    \"\"\"Create the " ++ node_group.name ++ " node group.\"\"\"",
     "",
     "    # Check if node group already exists",
     "    if \"" ++ node_group.name ++ "\" in bpy.data.node_groups:",
     "        return bpy.data.node_groups[\"" ++ node_group.name ++ "\"]",
     "",
     "    # Create new node group",
     "    node_group = bpy.data.node_groups.new(name=\"" ++ node_group.name
       ++ "\", type='" ++ tree_type ++ "')",
     ""] ++
    interfaceLines node_group ++
    ["    # Create nodes"] ++ nodes ++
    ["    # Create links"] ++ links ++
    ["", "    return node_group", ""])

/-- Embedding of `export_single_node_group` (src/__init__.py:155-246). -/
def export_single_node_group (node_group : PGraph) : Except Unit String := do
  let lines ← sgCoreLines node_group
  pure (String.intercalate "\n" lines)

/-! ## Program assembler

`export_node_group_to_python` (src/__init__.py:249-510).  Lines 269-354 are
a verbatim copy of the single-graph emitter's body; the `mg...` definitions
below transcribe that copy. -/

/-- Transcription of lines 323-334 (identical to `sgDefaultLines`). -/
def mgDefaultLines (var : String) : Nat → List PSocket → Except Unit (List String)
  | _, [] => Except.ok []
  | j, s :: rest =>
    if s.hasDefault && !s.isLinked then
      match get_socket_default_value s with
      | Except.error e => Except.error e
      | Except.ok none => mgDefaultLines var (j + 1) rest
      | Except.ok (some dv) => do
        let rest' ← mgDefaultLines var (j + 1) rest
        pure (["    if len(" ++ var ++ ".inputs) > " ++ toString j ++ " and hasattr("
                ++ var ++ ".inputs[" ++ toString j ++ "], \"default_value\"):",
               "        try:",
               "            " ++ var ++ ".inputs[" ++ toString j ++ "].default_value = " ++ dv,
               "        except:",
               "            pass"] ++ rest')
    else mgDefaultLines var (j + 1) rest

/-- Transcription of lines 299-336 (identical to `sgNodeBlock`). -/
def mgNodeBlock (i : Nat) (node : PNode) : Except Unit (List String) := do
  let var := "node_" ++ toString i ++ "_" ++ sanitize_name node.name
  let head :=
    ["    # Node: " ++ node.name,
     "    " ++ var ++ " = node_group.nodes.new(type='" ++ node.blIdname ++ "')",
     "    " ++ var ++ ".name = \"" ++ node.name ++ "\"",
     "    " ++ var ++ ".label = \"" ++ node.label ++ "\"",
     "    " ++ var ++ ".location = (" ++ node.locXR ++ ", " ++ node.locYR ++ ")"] ++
    (if node.hasWidth then ["    " ++ var ++ ".width = " ++ node.widthR] else []) ++
    (if node.hide then ["    " ++ var ++ ".hide = True"] else []) ++
    (if node.mute then ["    " ++ var ++ ".mute = True"] else []) ++
    export_node_properties node var
  let defaults ← mgDefaultLines var 0 node.inputs
  pure (head ++ defaults ++ [""])

/-- Transcription of the main emitter's node loop. -/
def mgNodesLines : Nat → List PNode → Except Unit (List String)
  | _, [] => Except.ok []
  | i, nd :: rest => do
    let block ← mgNodeBlock i nd
    let rest' ← mgNodesLines (i + 1) rest
    pure (block ++ rest')

/-- Transcription of lines 340-350 (identical to `sgLinkLines`). -/
def mgLinkLines (varNames : List (String × String)) : List PLink → Except Unit (List String)
  | [] => Except.ok []
  | l :: rest =>
    match dictGet varNames l.fromNode.name, dictGet varNames l.toNode.name with
    | some fv, some tv =>
      match socketIndex l.fromNode.outputs l.fromSocket,
            socketIndex l.toNode.inputs l.toSocket with
      | some i, some j => do
        let rest' ← mgLinkLines varNames rest
        pure (("    node_group.links.new(" ++ fv ++ ".outputs[" ++ toString i ++ "], "
                ++ tv ++ ".inputs[" ++ toString j ++ "])") :: rest')
      | _, _ => Except.error ()
    | _, _ => mgLinkLines varNames rest

/-- The main-routine block `export_node_group_to_python` emits inline for
the root graph (lines 269-354, a verbatim copy of lines 159-244). -/
def mgCoreLines (node_group : PGraph) : Except Unit (List String) := do
  let func_name := sanitize_name node_group.name
  let tree_type := get_node_tree_type node_group
  let nodes ← mgNodesLines 0 node_group.nodes
  let links ← mgLinkLines (nodeVarNames node_group.nodes) node_group.links
  pure (
    ["def create_" ++ func_name ++ "_node_group():",
     "    \"\"\"Create the " ++ node_group.name ++ " node group.\"\"\"",
     "",
     "    # Check if node group already exists",
     "    if \"" ++ node_group.name ++ "\" in bpy.data.node_groups:",
     "        return bpy.data.node_groups[\"" ++ node_group.name ++ "\"]",
     "",
     "    # Create new node group",
     "    node_group = bpy.data.node_groups.new(name=\"" ++ node_group.name
       ++ "\", type='" ++ tree_type ++ "')",
     ""] ++
    interfaceLines node_group ++
    ["    # Create nodes"] ++ nodes ++
    ["    # Create links"] ++ links ++
    ["", "    return node_group", ""])

/-- `has_geometry_nodes` (lines 358-360): the root or any emitted nested
group is a geometry tree. -/
def has_geometry_nodes (tree_type : String) (nested_groups : List PGraph) : Bool :=
  tree_type == "GeometryNodeTree"
    || nested_groups.any (fun ng => get_node_tree_type ng == "GeometryNodeTree")

/-- The `assign_to_object` helper text (lines 362-405), appended when a
geometry tree is among the emitted graphs and helpers are enabled. -/
def assignToObjectLines (hasGeo auto_assign : Bool) : List String :=
  if hasGeo && auto_assign then
    ["def assign_to_object(node_group, obj=None, create_if_none=True):",
     "    \"\"\"Assign the geometry node group to an object.\"\"\"",
     "    ",
     "    # If no object provided, try to use active object or create new one",
     "    if obj is None:",
     "        obj = bpy.context.active_object",
     "    ",
     "    if obj is None and create_if_none:",
     "        # Create a new mesh object",
     "        mesh = bpy.data.meshes.new(node_group.name + \"_mesh\")",
     "        obj = bpy.data.objects.new(node_group.name + \"_object\", mesh)",
     "        bpy.context.collection.objects.link(obj)",
     "        bpy.context.view_layer.objects.active = obj",
     "        obj.select_set(True)",
     "    ",
     "    if obj is None:",
     "        print(\"No object available to assign the node group to.\")",
     "        return None",
     "    ",
     "    # Check if object already has a Geometry Nodes modifier with this node group",
     "    for mod in obj.modifiers:",
     "        if mod.type == \"NODES\" and mod.node_group == node_group:",
     "            print(f\"Object '\x7bobj.name\x7d' already has this node group assigned.\")",
     "            return mod",
     "    ",
     "    # Add new Geometry Nodes modifier",
     "    mod = obj.modifiers.new(name=node_group.name, type=\"NODES\")",
     "    mod.node_group = node_group",
     "    ",
     "    print(f\"Assigned '\x7bnode_group.name\x7d' to object '\x7bobj.name\x7d'\")",
     "    return mod",
     "",
     ""]
  else []

/-- The `assign_to_material` helper text (lines 408-466), appended when the
root is a shader tree and helpers are enabled. -/
def assignToMaterialLines (tree_type : String) (auto_assign : Bool) : List String :=
  if tree_type == "ShaderNodeTree" && auto_assign then
    ["def assign_to_material(node_group, mat=None, create_if_none=True):",
     "    \"\"\"Assign the shader node group to a material.\"\"\"",
     "    ",
     "    # If no material provided, try to use active material or create new one",
     "    if mat is None:",
     "        # Try to get material from active object",
     "        obj = bpy.context.active_object",
     "        if obj and obj.active_material:",
     "            mat = obj.active_material",
     "    ",
     "    if mat is None and create_if_none:",
     "        # Create a new material",
     "        mat = bpy.data.materials.new(name=node_group.name + \"_material\")",
     "        mat.use_nodes = True",
     "        # Assign to active object if available",
     "        obj = bpy.context.active_object",
     "        if obj:",
     "            if len(obj.data.materials) > 0:",
     "                obj.data.materials[0] = mat",
     "            else:",
     "                obj.data.materials.append(mat)",
     "    ",
     "    if mat is None:",
     "        print(\"No material available to assign the node group to.\")",
     "        return None",
     "    ",
     "    if not mat.use_nodes:",
     "        mat.use_nodes = True",
     "    ",
     "    # Add the node group as a single group node (not expanded)",
     "    nodes = mat.node_tree.nodes",
     "    group_node = nodes.new(type=\"ShaderNodeGroup\")",
     "    group_node.node_tree = node_group",
     "    group_node.name = node_group.name",
     "    group_node.location = (-200, 300)",
     "    ",
     "    # Optionally connect to Material Output if present",
     "    output_node = None",
     "    for node in nodes:",
     "        if node.type == \"OUTPUT_MATERIAL\":",
     "            output_node = node",
     "            break",
     "    ",
     "    if output_node and len(group_node.outputs) > 0:",
     "        # Connect first output to Surface input",
     "        mat.node_tree.links.new(group_node.outputs[0], output_node.inputs[0])",
     "    ",
     "    print(f\"Added shader node group '\x7bnode_group.name\x7d' to material '\x7bmat.name\x7d'\")",
     "    return group_node",
     "",
     ""]
  else []

/-- The driver's nested-constructor calls (lines 469-477). -/
def mainExecNestedLines (nested_groups : List PGraph) : List String :=
  if nested_groups.isEmpty then []
  else
    ["# Create nested node groups first"] ++
    (nested_groups.map (fun ng =>
      let fn := sanitize_name ng.name
      [fn ++ "_group = create_" ++ fn ++ "_node_group()",
       "print(f\"Created nested node group: " ++ ng.name ++ "\")"])).flatten ++
    [""]

/-- The driver's conditional helper invocation (lines 484-508): invoked for
`assign_to_object` only when the *root* is a geometry tree, and for
`assign_to_material` when the root is a shader tree. -/
def driverTailLines (tree_type : String) (auto_assign : Bool) : List String :=
  if tree_type == "GeometryNodeTree" && auto_assign then
    ["",
     "# Assign to object (creates new object if none selected)",
     "# Set create_if_none=False if you only want to assign to existing selected object",
     "modifier = assign_to_object(node_group, obj=None, create_if_none=True)",
     "",
     "# To assign to a specific existing object, use:",
     "# modifier = assign_to_object(node_group, obj=bpy.data.objects['YourObjectName'], create_if_none=False)"]
  else if tree_type == "ShaderNodeTree" && auto_assign then
    ["",
     "# Assign to material (creates new material if none available)",
     "# Set create_if_none=False if you only want to assign to existing material",
     "material = assign_to_material(node_group, mat=None, create_if_none=True)",
     "",
     "# To assign to a specific existing material, use:",
     "# material = assign_to_material(node_group, mat=bpy.data.materials['YourMaterialName'], create_if_none=False)"]
  else []

/-- `str.split('\\n')` on the character level (keeps empty segments),
defined structurally so concrete exports evaluate. -/
def splitNlChars : List Char → List (List Char)
  | [] => [[]]
  | c :: rest =>
    let r := splitNlChars rest
    if c = '\n' then [] :: r
    else
      match r with
      | h :: t => (c :: h) :: t
      | [] => [[c]]

/-- Model of Python `text.split('\\n')`. -/
def splitNl (s : String) : List String :=
  (splitNlChars s.toList).map String.mk

/-- The dependency-routine section (lines 260-267): each nested group's
routine text is split back into lines and separated by blanks. -/
def nestedSectionLines (nested_groups : List PGraph) : Except Unit (List String) := do
  if nested_groups.isEmpty then pure []
  else do
    let blocks ← nested_groups.mapM (fun ng => do
      let txt ← export_single_node_group ng
      pure (splitNl txt ++ [""]))
    pure (["# === Nested Node Groups (Dependencies) ===", ""] ++ blocks.flatten ++
      ["# === Main Node Group ===", ""])

/-- The full emitted program, as its list of lines (joined with a newline by
`export_node_group_to_python`). -/
def exportLines (env : Env) (node_group : PGraph) (auto_assign include_nested : Bool) :
    Except Unit (List String) := do
  let nested_groups := if include_nested then find_nested_node_groups env node_group else []
  let nestedSec ← nestedSectionLines nested_groups
  let core ← mgCoreLines node_group
  let func_name := sanitize_name node_group.name
  let tree_type := get_node_tree_type node_group
  pure (
    ["import bpy", "", ""] ++
    nestedSec ++
    core ++ [""] ++
    assignToObjectLines (has_geometry_nodes tree_type nested_groups) auto_assign ++
    assignToMaterialLines tree_type auto_assign ++
    mainExecNestedLines nested_groups ++
    ["# Create the main node group",
     "node_group = create_" ++ func_name ++ "_node_group()",
     "print(f\"Node group \\\"" ++ node_group.name ++ "\\\" created successfully!\")"] ++
    driverTailLines tree_type auto_assign)

/-- Embedding of `export_node_group_to_python` (src/__init__.py:249-510). -/
def export_node_group_to_python (env : Env) (node_group : PGraph)
    (auto_assign include_nested : Bool) : Except Unit String := do
  let lines ← exportLines env node_group auto_assign include_nested
  pure (String.intercalate "\n" lines)

/-! ## Facts about variable-name resolution and socket indexing -/

theorem dictGet_nodeVarNamesAux_none : ∀ (i : Nat) (nodes : List PNode) (k : String),
    k ∉ nodes.map PNode.name → dictGet (nodeVarNamesAux i nodes) k = none := by
  intro i nodes
  induction nodes generalizing i with
  | nil => intro k _; rfl
  | cons n rest ih =>
    intro k hk
    have hk1 : k ≠ n.name := by simp at hk; exact fun h => hk.1 h
    have hk2 : k ∉ rest.map PNode.name := by simp at hk ⊢; exact hk.2
    show dictGet ((n.name, _) :: nodeVarNamesAux (i + 1) rest) k = none
    unfold dictGet
    rw [ih (i + 1) k hk2]
    simp [hk1.symm]

theorem dictGet_nodeVarNamesAux : ∀ (i : Nat) (nodes : List PNode) (k : Nat) (nd : PNode),
    (nodes.map PNode.name).Nodup → nodes.get? k = some nd →
    dictGet (nodeVarNamesAux i nodes) nd.name
      = some ("node_" ++ toString (i + k) ++ "_" ++ sanitize_name nd.name) := by
  intro i nodes
  induction nodes generalizing i with
  | nil => intro k nd _ h; simp at h
  | cons n rest ih =>
    intro k nd hnod hg
    cases k with
    | zero =>
      have he : n = nd := by simpa using hg
      rw [← he]
      have hhead : n.name ∉ rest.map PNode.name := (List.nodup_cons.mp hnod).1
      show dictGet ((n.name, _) :: nodeVarNamesAux (i + 1) rest) n.name = _
      unfold dictGet
      rw [dictGet_nodeVarNamesAux_none (i + 1) rest n.name hhead]
      simp
    | succ k' =>
      have hg' : rest.get? k' = some nd := by simpa using hg
      have hnod' := (List.nodup_cons.mp hnod).2
      have hrec := ih (i + 1) k' nd hnod' hg'
      show dictGet ((n.name, _) :: nodeVarNamesAux (i + 1) rest) nd.name = _
      unfold dictGet
      rw [hrec]
      have : i + 1 + k' = i + (k' + 1) := by omega
      rw [this]

/-- `list.index` finds exactly the position of a socket occurring at a
position in a duplicate-free socket list. -/
theorem socketIndex_of_get? : ∀ (socks : List PSocket) (s : PSocket) (i : Nat),
    (socks.map PSocket.sid).Nodup → socks.get? i = some s →
    socketIndex socks s = some i := by
  intro socks
  induction socks with
  | nil => intro s i _ h; simp at h
  | cons s0 rest ih =>
    intro s i hnod hg
    cases i with
    | zero =>
      have he : s0 = s := by simpa using hg
      rw [← he]
      unfold socketIndex
      rw [if_pos rfl]
    | succ i' =>
      have hg' : rest.get? i' = some s := by simpa using hg
      have hmem : s.sid ∈ rest.map PSocket.sid :=
        List.mem_map.mpr ⟨s, List.get?_mem hg', rfl⟩
      have hne : ¬ (s0.sid = s.sid) := fun h =>
        (List.nodup_cons.mp hnod).1 (h ▸ hmem)
      unfold socketIndex
      rw [if_neg hne, ih s i' (List.nodup_cons.mp hnod).2 hg']
      rfl

/-! ## Concrete nodes, links and environments for the emitter claims -/

def wOutSock : PSocket := { sid := 10 }
def wInSockA : PSocket := { sid := 20 }
def wInSockB : PSocket := { sid := 21 }

def wNodeX : PNode :=
  { name := "X", blIdname := "GeometryNodeTransform", outputs := [wOutSock] }

def wNodeY : PNode :=
  { name := "Y", blIdname := "GeometryNodeTransform", inputs := [wInSockA, wInSockB] }

/-- A fully resolvable link: X's only output to Y's second input. -/
def wLink : PLink :=
  { fromNode := wNodeX, fromSocket := wOutSock, toNode := wNodeY, toSocket := wInSockB }

/-- A link whose source socket is absent from X's output list. -/
def wBadLink : PLink :=
  { fromNode := wNodeX, fromSocket := { sid := 99 }, toNode := wNodeY, toSocket := wInSockB }

/-- A graph carrying the unresolvable-socket link. -/
def badGraph : PGraph :=
  { name := "Bad", blIdname := "GeometryNodeTree", hasInterface := false,
    nodes := [wNodeX, wNodeY], links := [wBadLink] }

def mixGrpNode : PNode :=
  { name := "grp", blIdname := "ShaderNodeGroup", nodeTree := some "Geo" }

/-- A geometry-kind nested group under a shader-kind root: the configuration
on which helper emission and helper invocation disagree. -/
def mixGeo : PGraph := { name := "Geo", blIdname := "GeometryNodeTree", hasInterface := false }

def mixRoot : PGraph :=
  { name := "Root", blIdname := "ShaderNodeTree", hasInterface := false,
    nodes := [mixGrpNode] }

def mixEnv : Env := [mixRoot, mixGeo]

/-! ## C4: positional socket addressing of emitted links -/

/-- The one-step equation of the link loop. -/
theorem sgLinkLines_cons (varNames : List (String × String)) (l : PLink) (ls : List PLink) :
    sgLinkLines varNames (l :: ls) =
      match dictGet varNames l.fromNode.name, dictGet varNames l.toNode.name with
      | some fv, some tv =>
        match socketIndex l.fromNode.outputs l.fromSocket,
              socketIndex l.toNode.inputs l.toSocket with
        | some i, some j => do
          let rest' ← sgLinkLines varNames ls
          pure (("    node_group.links.new(" ++ fv ++ ".outputs[" ++ toString i ++ "], "
                  ++ tv ++ ".inputs[" ++ toString j ++ "])") :: rest')
        | _, _ => Except.error ()
      | _, _ => sgLinkLines varNames ls := rfl

/-- **C4.** In a graph with unique node names, a link from the output socket
at position `i` of node X (found at node index `kx`) to the input socket at
position `j` of node Y (node index `ky`) — both nodes having been assigned
generated variable names, with sockets identity-distinct within their
lists — emits exactly the connect statement referencing `outputs[i]` on X's
variable and `inputs[j]` on Y's variable. -/
theorem link_statement_positions (nodes : List PNode) (l : PLink) (ls : List PLink)
    (kx ky i j : Nat) (rest : List String)
    (hnames : (nodes.map PNode.name).Nodup)
    (hkx : nodes.get? kx = some l.fromNode)
    (hky : nodes.get? ky = some l.toNode)
    (hout : (l.fromNode.outputs.map PSocket.sid).Nodup)
    (hin : (l.toNode.inputs.map PSocket.sid).Nodup)
    (hi : l.fromNode.outputs.get? i = some l.fromSocket)
    (hj : l.toNode.inputs.get? j = some l.toSocket)
    (hrest : sgLinkLines (nodeVarNames nodes) ls = Except.ok rest) :
    sgLinkLines (nodeVarNames nodes) (l :: ls) = Except.ok
      (("    node_group.links.new("
        ++ ("node_" ++ toString kx ++ "_" ++ sanitize_name l.fromNode.name)
        ++ ".outputs[" ++ toString i ++ "], "
        ++ ("node_" ++ toString ky ++ "_" ++ sanitize_name l.toNode.name)
        ++ ".inputs[" ++ toString j ++ "])") :: rest) := by
  have hfv : dictGet (nodeVarNames nodes) l.fromNode.name
      = some ("node_" ++ toString (0 + kx) ++ "_" ++ sanitize_name l.fromNode.name) :=
    dictGet_nodeVarNamesAux 0 nodes kx l.fromNode hnames hkx
  have htv : dictGet (nodeVarNames nodes) l.toNode.name
      = some ("node_" ++ toString (0 + ky) ++ "_" ++ sanitize_name l.toNode.name) :=
    dictGet_nodeVarNamesAux 0 nodes ky l.toNode hnames hky
  rw [Nat.zero_add] at hfv htv
  have hsi := socketIndex_of_get? _ _ _ hout hi
  have hsj := socketIndex_of_get? _ _ _ hin hj
  rw [sgLinkLines_cons, hfv, htv, hsi, hsj, hrest]
  rfl

/-- **C4 (witness).** The theorem at a concrete two-node graph: the link
from X's output 0 to Y's input 1 emits
`node_group.links.new(node_0_x.outputs[0], node_1_y.inputs[1])`. -/
theorem link_statement_positions_witness :
    sgLinkLines (nodeVarNames [wNodeX, wNodeY]) [wLink] = Except.ok
      ["    node_group.links.new(node_0_x.outputs[0], node_1_y.inputs[1])"] :=
  link_statement_positions [wNodeX, wNodeY] wLink [] 0 1 0 1 []
    (by decide) rfl rfl (by decide) (by decide) rfl rfl rfl

/-! ## C5: dangling-link tolerance -/

/-- **C5 (counterexample).** A link whose endpoint *socket* is missing from
its node's socket list does raise: `list.index` throws `ValueError`, and the
whole single-graph emission aborts instead of skipping the link. -/
theorem export_raises_on_missing_socket :
    export_single_node_group badGraph = Except.error () := rfl

/-- **C5 (amended).** A link whose endpoint *node* was not assigned a
variable (absent from the emitted node list) is skipped without raising and
without affecting the other links' emission; but a link whose endpoint
nodes resolve while an endpoint *socket* is absent from its node's current
socket list raises an uncaught `ValueError` that aborts the emitter. -/
theorem link_skip_and_raise (varNames : List (String × String)) (l : PLink) (ls : List PLink) :
    ((dictGet varNames l.fromNode.name = none ∨ dictGet varNames l.toNode.name = none) →
      sgLinkLines varNames (l :: ls) = sgLinkLines varNames ls) ∧
    (∀ fv tv, dictGet varNames l.fromNode.name = some fv →
      dictGet varNames l.toNode.name = some tv →
      (socketIndex l.fromNode.outputs l.fromSocket = none ∨
        socketIndex l.toNode.inputs l.toSocket = none) →
      sgLinkLines varNames (l :: ls) = Except.error ()) := by
  constructor
  · intro h
    rw [sgLinkLines_cons]
    rcases h with h | h
    · rw [h]
    · rw [h]
      cases dictGet varNames l.fromNode.name <;> rfl
  · intro fv tv hfv htv h
    rw [sgLinkLines_cons, hfv, htv]
    rcases h with h | h
    · rw [h]
    · rw [h]
      cases socketIndex l.fromNode.outputs l.fromSocket <;> rfl

/-- **C5 (witness).** The amended theorem at concrete inputs: with an empty
variable table the link is skipped; with both nodes present but the source
socket absent, the emitter raises. -/
theorem link_skip_and_raise_witness :
    sgLinkLines [] [wLink] = sgLinkLines [] [] ∧
    sgLinkLines (nodeVarNames [wNodeX, wNodeY]) [wBadLink] = Except.error () := by
  constructor
  · exact (link_skip_and_raise [] wLink []).1 (Or.inl rfl)
  · exact (link_skip_and_raise (nodeVarNames [wNodeX, wNodeY]) wBadLink []).2
      "node_0_x" "node_1_y" rfl rfl (Or.inl rfl)

/-! ## C8: determinism of the exporter -/

/-- **C8.** Two invocations of `export_node_group_to_python` on the same
namespace snapshot, graph and options produce byte-identical text.  The
embedding is a pure function of its inputs because the source keeps no
module-level mutable state (its only globals are the constant `SKIP_PROPS`
table and pure helpers), so equal states give equal output. -/
theorem export_deterministic (env₁ env₂ : Env) (g₁ g₂ : PGraph) (a₁ a₂ i₁ i₂ : Bool)
    (henv : env₁ = env₂) (hg : g₁ = g₂) (ha : a₁ = a₂) (hi : i₁ = i₂) :
    export_node_group_to_python env₁ g₁ a₁ i₁ = export_node_group_to_python env₂ g₂ a₂ i₂ := by
  subst henv
  subst hg
  subst ha
  subst hi
  rfl

/-- **C8 (witness).** Two runs on a concrete snapshot agree. -/
theorem export_deterministic_witness :
    export_node_group_to_python mixEnv mixRoot true true
      = export_node_group_to_python mixEnv mixRoot true true :=
  export_deterministic mixEnv mixEnv mixRoot mixRoot true true true true rfl rfl rfl rfl

/-! ## C9: helper emission versus helper invocation -/

/-- The claim's counterexample check, as an executable test on the exporter:
with a shader-kind root whose nested dependency is geometry-kind (helpers
enabled, nested included), the emitted program *defines*
`assign_to_object` but its driver never *invokes* it. -/
def objectHelperAppendedNotInvoked : Bool :=
  match exportLines mixEnv mixRoot true true with
  | Except.ok L =>
    L.contains "def assign_to_object(node_group, obj=None, create_if_none=True):" &&
    !(L.contains "modifier = assign_to_object(node_group, obj=None, create_if_none=True)")
  | Except.error _ => false

/-- **C9 (counterexample).** The `assign_to_object` helper is appended (any
emitted graph geometry-kind) without being invoked by the driver (root not
geometry-kind): appended-iff-invoked is false as stated. -/
theorem helper_appended_but_not_invoked : objectHelperAppendedNotInvoked = true := rfl

/-- **C9 (amended).** With helpers enabled, `assign_to_object` is *appended*
iff some emitted graph is geometry-kind, but *invoked* by the driver iff the
root itself is geometry-kind (so it can be appended yet never invoked);
`assign_to_material` is appended iff it is invoked (both conditioned on a
shader-kind root). -/
theorem helper_append_invoke_conditions (tree_type : String) (nested : List PGraph) (a : Bool) :
    (assignToObjectLines (has_geometry_nodes tree_type nested) a ≠ [] ↔
      (has_geometry_nodes tree_type nested && a) = true) ∧
    ("modifier = assign_to_object(node_group, obj=None, create_if_none=True)"
        ∈ driverTailLines tree_type a ↔
      (tree_type == "GeometryNodeTree" && a) = true) ∧
    (assignToMaterialLines tree_type a ≠ [] ↔
      "material = assign_to_material(node_group, mat=None, create_if_none=True)"
        ∈ driverTailLines tree_type a) := by
  refine ⟨?_, ?_, ?_⟩
  · unfold assignToObjectLines
    by_cases h : (has_geometry_nodes tree_type nested && a) = true
    · rw [if_pos h]
      simp [h]
    · rw [if_neg h]
      simp [h]
  · unfold driverTailLines
    by_cases h1 : (tree_type == "GeometryNodeTree" && a) = true
    · rw [if_pos h1]
      simp [h1]
    · rw [if_neg h1]
      by_cases h2 : (tree_type == "ShaderNodeTree" && a) = true
      · rw [if_pos h2]
        simp [h1]
      · rw [if_neg h2]
        simp [h1]
  · unfold assignToMaterialLines driverTailLines
    by_cases h2 : (tree_type == "ShaderNodeTree" && a) = true
    · have hne : ¬ (tree_type == "GeometryNodeTree" && a) = true := by
        rcases Bool.and_eq_true_iff.mp h2 with ⟨he, _⟩
        have : tree_type = "ShaderNodeTree" := by simpa using he
        subst this
        simp
      rw [if_pos h2, if_neg hne, if_pos h2]
      simp
    · rw [if_neg h2]
      by_cases h1 : (tree_type == "GeometryNodeTree" && a) = true
      · rw [if_pos h1]
        simp
      · rw [if_neg h1, if_neg h2]
        simp

/-- **C9 (witness).** The amended theorem at the mixed configuration:
helper appended, invocation absent. -/
theorem helper_append_invoke_conditions_witness :
    assignToObjectLines (has_geometry_nodes "ShaderNodeTree" [mixGeo]) true ≠ [] ∧
    "modifier = assign_to_object(node_group, obj=None, create_if_none=True)"
      ∉ driverTailLines "ShaderNodeTree" true := by
  have h := helper_append_invoke_conditions "ShaderNodeTree" [mixGeo] true
  refine ⟨h.1.mpr (by decide), fun hm => ?_⟩
  have := h.2.1.mp hm
  simp at this

/-! ## C10: the two duplicated emitters are equivalent -/

theorem mgDefaultLines_eq_sg (var : String) : ∀ (j : Nat) (socks : List PSocket),
    mgDefaultLines var j socks = sgDefaultLines var j socks := by
  intro j socks
  induction socks generalizing j with
  | nil => rfl
  | cons s rest ih =>
    unfold mgDefaultLines sgDefaultLines
    split
    · cases get_socket_default_value s with
      | error e => rfl
      | ok o =>
        cases o with
        | none => exact ih (j + 1)
        | some dv => rw [ih (j + 1)]
    · exact ih (j + 1)

theorem mgNodeBlock_eq_sg (i : Nat) (node : PNode) :
    mgNodeBlock i node = sgNodeBlock i node := by
  unfold mgNodeBlock sgNodeBlock
  simp only [mgDefaultLines_eq_sg]

theorem mgNodesLines_eq_sg : ∀ (i : Nat) (nodes : List PNode),
    mgNodesLines i nodes = sgNodesLines i nodes := by
  intro i nodes
  induction nodes generalizing i with
  | nil => rfl
  | cons nd rest ih =>
    unfold mgNodesLines sgNodesLines
    rw [mgNodeBlock_eq_sg, ih (i + 1)]

theorem mgLinkLines_eq_sg (varNames : List (String × String)) : ∀ ls : List PLink,
    mgLinkLines varNames ls = sgLinkLines varNames ls := by
  intro ls
  induction ls with
  | nil => rfl
  | cons l rest ih =>
    unfold mgLinkLines sgLinkLines
    rw [ih]

/-- **C10.** The construction-routine block `export_node_group_to_python`
emits inline for the root graph (guard, allocation, interface declarations,
node construction with properties and defaults, link construction, return)
is identical to the text `export_single_node_group` produces for the same
graph: the duplicated emitters are equivalent. -/
theorem duplicated_emitters_equivalent (g : PGraph) :
    mgCoreLines g = sgCoreLines g ∧
    export_single_node_group g
      = Except.map (fun ls => String.intercalate "\n" ls) (mgCoreLines g) := by
  have hcore : mgCoreLines g = sgCoreLines g := by
    unfold mgCoreLines sgCoreLines
    rw [mgNodesLines_eq_sg, mgLinkLines_eq_sg]
  refine ⟨hcore, ?_⟩
  rw [hcore]
  unfold export_single_node_group
  cases sgCoreLines g <;> rfl

end ExportBlend
